import Mathlib

/-!
# Verification of the c-modbus-slave request engine

Shallow embedding of the Modbus slave stack (PDU dispatcher, coil / register /
file handlers, diagnostics and event-log bookkeeping, ASCII framer) translated
from the C sources, together with theorems settling the specification claims.

Bytes are modelled as `Nat` (< 256 where it matters, stated as hypotheses),
16-bit machine integers as `Nat` with explicit `% 65536`, buffers as `List Nat`.
-/

namespace ModbusSlave

/-! ## Status and event codes (mbdef.h) -/

/-- Modbus status code, `enum mbstatus_e` from mbdef.h. -/
inductive Mbstatus where
  | MB_OK
  | MB_ILLEGAL_FN
  | MB_ILLEGAL_DATA_ADDR
  | MB_ILLEGAL_DATA_VAL
  | MB_DEV_FAIL
  | MB_ACK
  | MB_BUSY
  | MB_NEG_ACK
  | MB_MEM_PAR_ERR
deriving DecidableEq, Repr

/-- Wire value of a status code (the numeric values of `enum mbstatus_e`). -/
def Mbstatus.code : Mbstatus → Nat
  | .MB_OK => 0x00
  | .MB_ILLEGAL_FN => 0x01
  | .MB_ILLEGAL_DATA_ADDR => 0x02
  | .MB_ILLEGAL_DATA_VAL => 0x03
  | .MB_DEV_FAIL => 0x04
  | .MB_ACK => 0x05
  | .MB_BUSY => 0x06
  | .MB_NEG_ACK => 0x07
  | .MB_MEM_PAR_ERR => 0x08

/-- Communication-log event bits (mbdef.h). -/
def MB_COMM_EVENT_IS_RECV : Nat := 1 <<< 7
def MB_COMM_EVENT_RECV_COMM_ERR : Nat := 1 <<< 1
def MB_COMM_EVENT_RECV_CHAR_OVERRUN : Nat := 1 <<< 4
def MB_COMM_EVENT_RECV_LISTEN_MODE : Nat := 1 <<< 5
def MB_COMM_EVENT_RECV_BROADCAST : Nat := 1 <<< 6
def MB_COMM_EVENT_SEND_READ_EX : Nat := 1 <<< 0
def MB_COMM_EVENT_SEND_ABORT_EX : Nat := 1 <<< 1
def MB_COMM_EVENT_SEND_BUSY_EX : Nat := 1 <<< 2
def MB_COMM_EVENT_SEND_NAK_EX : Nat := 1 <<< 3
def MB_COMM_EVENT_SEND_LISTEN_ONLY : Nat := 1 <<< 5
def MB_COMM_EVENT_IS_SEND : Nat := 1 <<< 6
def MB_COMM_EVENT_COMM_RESTART : Nat := 0x00
def MB_COMM_EVENT_ENTERED_LISTEN_ONLY : Nat := 0x04
def MB_COMM_EVENT_LOG_LEN : Nat := 64

/-! ## Endian helpers (endian.h)

`betou16` reads a big-endian 16-bit value from a byte buffer at an index,
`u16tobe` produces the two big-endian bytes of a 16-bit value (with the
C `uint8_t` truncation made explicit). -/

def betou16 (buf : List Nat) (i : Nat) : Nat :=
  buf.getD i 0 * 256 + buf.getD (i + 1) 0

def u16tobe (v : Nat) : List Nat :=
  [v / 256 % 256, v % 256]

/-! ## Descriptor lookup (mbcoil.c / mbfile.c, `BSEARCH_THRESHOLD = 16`)

Both `mbcoil_find_desc` and `mbfile_find` implement the same algorithm: a
linear scan for tables of at most 16 entries and a binary search (on the
sorted key) above that.  The algorithm is translated once, parametrised by
the key projection, and instantiated per table kind. -/

def BSEARCH_THRESHOLD : Nat := 16

/-- The linear-scan path: first entry whose key equals `k` (the C `for` loop). -/
def mbfind_lin {α : Type} (key : α → Nat) (tbl : List α) (k : Nat) : Option α :=
  tbl.find? (fun c => key c == k)

/-- The binary-search loop (`while (l <= r)` body of the C lookup). -/
def mbfind_bin_go {α : Type} (key : α → Nat) (tbl : List α) (k : Nat)
    (l r : Nat) : Option α :=
  if h : l ≤ r then
    match tbl[(l + (r - l) / 2)]? with
    | none => none
    | some c =>
      if key c < k then mbfind_bin_go key tbl k (l + (r - l) / 2 + 1) r
      else if k < key c then
        if l + (r - l) / 2 = 0 then none
        else mbfind_bin_go key tbl k l (l + (r - l) / 2 - 1)
      else some c
  else none
termination_by r + 1 - l
decreasing_by
  all_goals
    (have hd : (r - l) / 2 ≤ r - l := Nat.div_le_self _ _; omega)

/-- The binary-search path over the whole table. -/
def mbfind_bin {α : Type} (key : α → Nat) (tbl : List α) (k : Nat) : Option α :=
  if tbl.isEmpty then none
  else mbfind_bin_go key tbl k 0 (tbl.length - 1)

/-- The full lookup with its size threshold (mbcoil_find_desc / mbfile_find
shape: `NULL`/empty table yields nothing; more than 16 entries uses binary
search; otherwise the linear scan). -/
def mbfind {α : Type} (key : α → Nat) (tbl : List α) (k : Nat) : Option α :=
  if tbl.isEmpty then none
  else if tbl.length > BSEARCH_THRESHOLD then mbfind_bin_go key tbl k 0 (tbl.length - 1)
  else mbfind_lin key tbl k

/-- Strictly ascending key order of a descriptor table (the sortedness the
headers demand of descriptor arrays for binary search). -/
def sortedByKey {α : Type} (key : α → Nat) : List α → Bool
  | [] => true
  | [_] => true
  | a :: b :: rest => decide (key a < key b) && sortedByKey key (b :: rest)

/-! ## Coil descriptors and accessors (mbcoil.c) -/

/-- Coil read binding: the tagged union `coil->read` together with the
`MCACC_R_*` mode bits.  `ptr` holds an optional byte-cell index into the host
byte memory (`none` models a NULL pointer) and a bit index; `fn` holds the
value an attached callback returns (`none` models a NULL function pointer). -/
inductive CoilR where
  | noAcc
  | val (v : Nat)
  | ptr (p : Option Nat) (ix : Nat)
  | fn (f : Option Nat)

/-- Coil write binding (`coil->write` with the `MCACC_W_*` mode bits).
A `fn` callback returns a status depending on the written bit. -/
inductive CoilW where
  | noAcc
  | ptr (p : Option Nat) (ix : Nat)
  | fn (f : Option (Bool → Mbstatus))

/-- Coil descriptor, `struct mbcoil_desc_s`.  The lock callbacks are modelled
by the value they return (`none` = no callback installed). -/
structure MbcoilDesc where
  address : Nat
  rlock_cb : Option Bool := none
  wlock_cb : Option Bool := none
  rd : CoilR := .noAcc
  wr : CoilW := .noAcc
  post_write_cb : Bool := false

def mbcoil_find_desc (coils : List MbcoilDesc) (addr : Nat) : Option MbcoilDesc :=
  mbfind (·.address) coils addr

/-- Result of `mbcoil_read` (the `MBCOIL_READ_*` values). -/
inductive CoilReadRes where
  | off
  | on
  | locked
  | noAccess
  | devFail
deriving DecidableEq, Repr

/-- `mbcoil_read` over the host byte memory `mem`. -/
def mbcoil_read (mem : List Nat) (coil : MbcoilDesc) : CoilReadRes :=
  if coil.rlock_cb.getD false then .locked
  else
    match coil.rd with
    | .val v => if v ≠ 0 then .on else .off
    | .ptr p ix =>
      match p with
      | some cell =>
        if ix < 8 then (if (mem.getD cell 0).testBit ix then .on else .off)
        else .devFail
      | none => .devFail
    | .fn f =>
      match f with
      | some v => if v ≠ 0 then .on else .off
      | none => .devFail
    | .noAcc => .noAccess

/-- `mbcoil_write_allowed`: false iff a write-lock callback is present and
currently asserts the lock. -/
def mbcoil_write_allowed (coil : MbcoilDesc) : Bool :=
  ¬ coil.wlock_cb.getD false

/-- `mbcoil_write`: store one bit through the write binding, returning the
status and the updated byte memory. -/
def mbcoil_write (mem : List Nat) (coil : Option MbcoilDesc) (value : Bool) :
    Mbstatus × List Nat :=
  match coil with
  | none => (.MB_DEV_FAIL, mem)
  | some coil =>
    match coil.wr with
    | .ptr p ix =>
      match p with
      | none => (.MB_DEV_FAIL, mem)
      | some cell =>
        if ix > 7 then (.MB_DEV_FAIL, mem)
        else
          let old := mem.getD cell 0
          let b := if value then old ||| (1 <<< ix) else old &&& (255 ^^^ (1 <<< ix))
          (.MB_OK, mem.set cell b)
    | .fn f =>
      match f with
      | none => (.MB_DEV_FAIL, mem)
      | some g => (g value, mem)
    | .noAcc => (.MB_DEV_FAIL, mem)

/-! ## Instance state (mbinst.h) -/

/-- Per-instance mutable state (`struct mbinst_s::state`): counters (16-bit),
status word, ASCII delimiter, listen-only flag and the 64-entry
communication-event ring buffer. -/
structure MbState where
  is_listen_only : Bool := false
  status : Nat := 0
  ascii_delimiter : Nat := 0x0A
  comm_event_counter : Nat := 0
  bus_msg_counter : Nat := 0
  bus_comm_err_counter : Nat := 0
  exception_counter : Nat := 0
  msg_counter : Nat := 0
  no_resp_counter : Nat := 0
  nak_counter : Nat := 0
  busy_counter : Nat := 0
  bus_char_overrun_counter : Nat := 0
  event_log : List Nat := List.replicate 64 0
  event_log_write_pos : Nat := 0
  event_log_count : Nat := 0
deriving DecidableEq, Repr

/-- Modelled from the spec: `mb_add_comm_event` (mbinst.c is not under src/;
only its callers are).  §4.8: "A 64-entry ring buffer.  Appending rotates
`write_pos` and increases `count` up to 64 (saturating)." -/
def mb_add_comm_event (s : MbState) (event : Nat) : MbState :=
  { s with
    event_log := s.event_log.set s.event_log_write_pos event
    event_log_write_pos := (s.event_log_write_pos + 1) % MB_COMM_EVENT_LOG_LEN
    event_log_count := min (s.event_log_count + 1) MB_COMM_EVENT_LOG_LEN }

/-- `reset_comm_counters` (mbfn_diag.c): zero all nine counters. -/
def reset_comm_counters (s : MbState) : MbState :=
  { s with
    comm_event_counter := 0
    bus_msg_counter := 0
    bus_comm_err_counter := 0
    exception_counter := 0
    msg_counter := 0
    no_resp_counter := 0
    nak_counter := 0
    busy_counter := 0
    bus_char_overrun_counter := 0 }

/-- A 16-bit counter increment (`++counter` on a `uint16_t`). -/
def incr16 (n : Nat) : Nat := (n + 1) % 65536

/-! ## Register descriptors and accessors

Modelled from the spec: mbreg.h / mbreg.c are not under src/ (only their
callers mbfile.c and the tests are).  §3 "Register descriptor" and
§4.3 "Register accessor" of the spec define the model below. -/

/-- Register type; multi-word types occupy `size_in_bytes/2` consecutive
addresses, at least 1 (spec §3). -/
inductive MbregType where
  | u8
  | u16
  | u32
  | i32
  | f32
  | u64
  | i64
  | f64
  | blkU8 (sz : Nat)
  | blkU16 (sz : Nat)

/-- Word count of a register type (`size_in_bytes/2`, at least 1). -/
def MbregType.nWords : MbregType → Nat
  | .u8 => 1
  | .u16 => 1
  | .u32 => 2
  | .i32 => 2
  | .f32 => 2
  | .u64 => 4
  | .i64 => 4
  | .f64 => 4
  | .blkU8 sz => max 1 ((sz + 1) / 2)
  | .blkU16 sz => max 1 sz


/-- Modelled from the spec: register read binding ∈ {none, inline constant,
direct typed pointer, callback} (§3).  `val` carries the constant's words,
`ptr` an index into the host word memory, `fn` the words a callback produces
(`none` = failure signal). -/
inductive RegR where
  | noAcc
  | val (ws : List Nat)
  | ptr (cell : Nat)
  | fn (res : Option (List Nat))

/-- Modelled from the spec: register write binding ∈ {none, direct typed
pointer, callback}; a callback write returns the given status. -/
inductive RegW where
  | noAcc
  | ptr (cell : Nat)
  | fn (st : Mbstatus)

/-- Modelled from the spec: register descriptor (§3): 16-bit address key,
type, orthogonal read/write bindings, lock-predicate results,
allow-partial-write flag and post-write hook. -/
structure MbregDesc where
  address : Nat
  type : MbregType := .u16
  racc : RegR := .noAcc
  wacc : RegW := .noAcc
  rlocked : Bool := false
  wlocked : Bool := false
  allow_partial_write : Bool := false
  post_write_cb : Bool := false

def mbreg_find_desc (regs : List MbregDesc) (addr : Nat) : Option MbregDesc :=
  mbfind (·.address) regs addr

/-- Result of the register read accessor: the emitted words, or one of the
failure signals (spec §4.3 read). -/
inductive RegReadRes where
  | words (ws : List Nat)
  | locked
  | noAccess
  | devFail

/-- The source words of a register, normalised to exactly `nWords` entries. -/
def regFullWords (t : MbregType) (ws : List Nat) : List Nat :=
  (ws ++ List.replicate t.nWords 0).take t.nWords

/-- Modelled from the spec (§4.3 read): check the read lock, dispatch on the
read binding, and emit `min (nWords - offset) remaining` words starting at
`offset` inside the descriptor. -/
def mbreg_read (mem : List Nat) (reg : MbregDesc) (remaining offset : Nat) :
    RegReadRes :=
  if reg.rlocked then .locked
  else
    let n := min (reg.type.nWords - offset) remaining
    match reg.racc with
    | .noAcc => .noAccess
    | .val ws => .words (((regFullWords reg.type ws).drop offset).take remaining)
    | .ptr cell => .words ((List.range n).map (fun k => mem.getD (cell + offset + k) 0))
    | .fn res =>
      match res with
      | none => .devFail
      | some ws => .words (((regFullWords reg.type ws).drop offset).take remaining)

/-- Modelled from the spec (§4.3 write_allowed): returns the number of
registers a write through this descriptor will cover, `0` meaning "not
allowed": write access must be present, the write lock open; a write starting
mid-descriptor or covering only part of it requires `allow_partial_write`. -/
def mbreg_write_allowed (reg : MbregDesc) (start_addr block_start remaining : Nat) :
    Nat :=
  match reg.wacc with
  | .noAcc => 0
  | _ =>
    if reg.wlocked then 0
    else
      let offset := start_addr - reg.address
      let n := reg.type.nWords - offset
      if offset ≠ 0 ∧ ¬ reg.allow_partial_write then 0
      else if remaining < n ∧ ¬ reg.allow_partial_write then 0
      else min n remaining

/-- Store `n` big-endian words from the byte buffer `val` into the host word
memory starting at cell `cell`. -/
def writeWords (mem : List Nat) (cell n : Nat) (val : List Nat) : List Nat :=
  (List.range n).foldl (fun m k => m.set (cell + k) (betou16 val (2 * k))) mem

/-- Modelled from the spec (§4.3 write): perform the write through the write
binding; returns the status, the number of registers written and the updated
word memory.  Atomic per descriptor. -/
def mbreg_write (mem : List Nat) (reg : Option MbregDesc)
    (start_addr remaining : Nat) (val : List Nat) :
    Mbstatus × Nat × List Nat :=
  match reg with
  | none => (.MB_DEV_FAIL, 0, mem)
  | some reg =>
    let offset := start_addr - reg.address
    let n := min (reg.type.nWords - offset) remaining
    match reg.wacc with
    | .noAcc => (.MB_DEV_FAIL, 0, mem)
    | .ptr cell => (.MB_OK, n, writeWords mem (cell + offset) n val)
    | .fn st => (st, if st = .MB_OK then n else 0, mem)

/-! ## File descriptors and accessors (mbfile.h / mbfile.c) -/

/-- File descriptor, `struct mbfile_desc_s`: a file number keying a sorted
array of register records. -/
structure MbfileDesc where
  file_no : Nat
  records : List MbregDesc

def mbfile_find (files : List MbfileDesc) (file_no : Nat) : Option MbfileDesc :=
  mbfind (·.file_no) files file_no

/-- `enum mbfile_read_status_e`. -/
inductive MbfileReadStatus where
  | ok
  | illegalAddr
  | deviceErr
deriving DecidableEq, Repr

/-- Big-endian serialisation of a word list. -/
def wordsToBytes (ws : List Nat) : List Nat :=
  (ws.map u16tobe).join

/-- The record-walk loop of `mbfile_read`: for each 16-bit position, a missing
descriptor or a locked / read-denied register contributes two zero bytes and
advances one word; a successful read contributes its words and advances by the
word count produced; a device failure aborts. -/
def mbfileReadGo (regs : List MbregDesc) (mem : List Nat)
    (record_no record_length reg_offs : Nat) : MbfileReadStatus × List Nat :=
  if h : reg_offs < record_length then
    match mbreg_find_desc regs ((record_no + reg_offs) % 65536) with
    | some reg =>
      match mbreg_read mem reg (record_length - reg_offs) 0 with
      | .devFail => (.deviceErr, [])
      | .locked =>
        let (st, bs) := mbfileReadGo regs mem record_no record_length (reg_offs + 1)
        (st, 0 :: 0 :: bs)
      | .noAccess =>
        let (st, bs) := mbfileReadGo regs mem record_no record_length (reg_offs + 1)
        (st, 0 :: 0 :: bs)
      | .words ws =>
        let (st, bs) := mbfileReadGo regs mem record_no record_length
          (reg_offs + min reg.type.nWords (record_length - reg_offs))
        (st, wordsToBytes ws ++ bs)
    | none =>
      let (st, bs) := mbfileReadGo regs mem record_no record_length (reg_offs + 1)
      (st, 0 :: 0 :: bs)
  else (.ok, [])
termination_by record_length - reg_offs
decreasing_by
  all_goals first
    | omega
    | (have hp : 1 ≤ reg.type.nWords := by
         cases reg.type <;> simp [MbregType.nWords] <;> omega
       omega)

/-- `mbfile_read`: returns `ILLEGAL_ADDR` (emitting nothing) when the first
requested record is missing, otherwise walks the record range. -/
def mbfile_read (file : MbfileDesc) (mem : List Nat)
    (record_no record_length : Nat) : MbfileReadStatus × List Nat :=
  match mbreg_find_desc file.records record_no with
  | none => (.illegalAddr, [])
  | some _ => mbfileReadGo file.records mem record_no record_length 0

/-- The validation walk of `mbfile_write_allowed`: every word of the range
must resolve to a descriptor whose `mbreg_write_allowed` is non-zero. -/
def mbfileWriteAllowedGo (regs : List MbregDesc)
    (record_no record_length : Nat) (val : List Nat) (reg_offs : Nat) : Mbstatus :=
  if h : reg_offs < record_length then
    let addr := (record_no + reg_offs) % 65536
    match mbreg_find_desc regs addr with
    | none => .MB_ILLEGAL_DATA_ADDR
    | some reg =>
      match mbreg_write_allowed reg addr record_no (record_length - reg_offs) with
      | 0 => .MB_ILLEGAL_DATA_ADDR
      | n + 1 => mbfileWriteAllowedGo regs record_no record_length val (reg_offs + (n + 1))
  else .MB_OK
termination_by record_length - reg_offs
decreasing_by omega

/-- `mbfile_write_allowed` (mbfile.c). -/
def mbfile_write_allowed (file : MbfileDesc) (record_no record_length : Nat)
    (val : List Nat) : Mbstatus :=
  mbfileWriteAllowedGo file.records record_no record_length val 0

/-- The write walk of `mbfile_write`: write each position through the register
write accessor, aborting on a non-OK status or a zero register count. -/
def mbfileWriteGo (regs : List MbregDesc) (mem : List Nat)
    (record_no record_length : Nat) (val : List Nat) (reg_offs : Nat) :
    Mbstatus × List Nat :=
  if h : reg_offs < record_length then
    let addr := (record_no + reg_offs) % 65536
    match mbreg_write mem (mbreg_find_desc regs addr) addr (record_length - reg_offs)
        (val.drop (2 * reg_offs)) with
    | (st, n, mem') =>
      if st ≠ .MB_OK then (st, mem')
      else
        match n with
        | 0 => (.MB_DEV_FAIL, mem')
        | n + 1 => mbfileWriteGo regs mem' record_no record_length val (reg_offs + (n + 1))
  else (.MB_OK, mem)
termination_by record_length - reg_offs
decreasing_by omega

/-- `mbfile_write` (mbfile.c): perform the writes in order, returning the
first non-OK status; a NULL file is a device failure. -/
def mbfile_write (file : Option MbfileDesc) (mem : List Nat)
    (record_no record_length : Nat) (val : List Nat) : Mbstatus × List Nat :=
  match file with
  | none => (.MB_DEV_FAIL, mem)
  | some file => mbfileWriteGo file.records mem record_no record_length val 0

/-! ## Coil PDU handlers (mbfn_coils.c) -/

def MBCOIL_N_READ_MAX : Nat := 0x07D0
def MBCOIL_N_WRITE_MAX : Nat := 0x07B0

/-- The value of a byte whose bits, LSB first, are the given list (at most 8
entries; used for `res->p[2+i/8] |= 1 << (i%8)` over zero-initialised bytes). -/
def byteOfBits (l : List Bool) : Nat :=
  l.foldr (fun b acc => (if b then 1 else 0) + 2 * acc) 0

/-- Pack a list of bits into bytes, LSB first, zero-padding the last byte. -/
def packBits (l : List Bool) : List Nat :=
  match l with
  | [] => []
  | b :: rest => byteOfBits ((b :: rest).take 8) :: packBits ((b :: rest).drop 8)
termination_by l.length
decreasing_by
  simp only [List.length_drop, List.length_cons]
  omega

/-- The read loop of `mbfn_read_coils`: one bit per address; a missing coil or
one without read access contributes `0`; a locked coil aborts the request with
`ILLEGAL_DATA_ADDR`, a device failure with `DEV_FAIL`. -/
def readCoilsGo (mem : List Nat) (coils : List MbcoilDesc) (start_addr : Nat) :
    (i remaining : Nat) → Except Mbstatus (List Bool)
  | _, 0 => .ok []
  | i, remaining + 1 =>
    let addr := (start_addr + i) % 65536
    let bit : Except Mbstatus Bool :=
      match mbcoil_find_desc coils addr with
      | some coil =>
        match mbcoil_read mem coil with
        | .off => .ok false
        | .on => .ok true
        | .locked => .error .MB_ILLEGAL_DATA_ADDR
        | .noAccess => .ok false
        | .devFail => .error .MB_DEV_FAIL
      | none => .ok false
    match bit with
    | .error st => .error st
    | .ok b =>
      match readCoilsGo mem coils start_addr (i + 1) remaining with
      | .error st => .error st
      | .ok bs => .ok (b :: bs)

/-- `mbfn_read_coils` (also serves FC 0x02): returns the status and, on
success, the full response `[fc, byte_count, packed bits…]`. -/
def mbfn_read_coils (coils : List MbcoilDesc) (req : List Nat) (mem : List Nat) :
    Mbstatus × List Nat :=
  if req.getD 0 0 ≠ 0x01 ∧ req.getD 0 0 ≠ 0x02 then (.MB_DEV_FAIL, [])
  else if req.length ≠ 5 then (.MB_ILLEGAL_DATA_VAL, [])
  else
    let start_addr := betou16 req 1
    let quantity := betou16 req 3
    if quantity = 0 ∨ quantity > MBCOIL_N_READ_MAX then (.MB_ILLEGAL_DATA_VAL, [])
    else if (mbcoil_find_desc coils start_addr).isNone then (.MB_ILLEGAL_DATA_ADDR, [])
    else
      match readCoilsGo mem coils start_addr 0 quantity with
      | .error st => (st, [])
      | .ok bits => (.MB_OK, req.getD 0 0 :: (quantity + 7) / 8 :: packBits bits)

/-- `mbfn_write_coil` (FC 0x05): write a single coil and echo the request. -/
def mbfn_write_coil (coils : List MbcoilDesc) (req : List Nat) (mem : List Nat) :
    Mbstatus × List Nat × List Nat :=
  if req.getD 0 0 ≠ 0x05 then (.MB_DEV_FAIL, [], mem)
  else if req.length ≠ 5 then (.MB_ILLEGAL_DATA_VAL, [], mem)
  else
    let coil_addr := betou16 req 1
    let coil_value := betou16 req 3
    if coil_value ≠ 0x0000 ∧ coil_value ≠ 0xFF00 then (.MB_ILLEGAL_DATA_VAL, [], mem)
    else
      match mbcoil_find_desc coils coil_addr with
      | none => (.MB_ILLEGAL_DATA_ADDR, [], mem)
      | some coil =>
        if ¬ mbcoil_write_allowed coil then (.MB_ILLEGAL_DATA_ADDR, [], mem)
        else
          match mbcoil_write mem (some coil) (coil_value ≠ 0) with
          | (st, mem') =>
            if st ≠ .MB_OK then (st, [], mem')
            else (.MB_OK, req.take 5, mem')

/-- The validation loop of `mbfn_write_coils`: every coil of the range must
exist and have an open write lock. -/
def writeCoilsValidate (coils : List MbcoilDesc) (start_addr : Nat) :
    (i remaining : Nat) → Bool
  | _, 0 => true
  | i, remaining + 1 =>
    let addr := (start_addr + i) % 65536
    match mbcoil_find_desc coils addr with
    | none => false
    | some coil =>
      if ¬ mbcoil_write_allowed coil then false
      else writeCoilsValidate coils start_addr (i + 1) remaining

/-- The write loop of `mbfn_write_coils`: bit `i` of the packed request data
is written to the coil at `start_addr + i`; a non-OK write aborts. -/
def writeCoilsApply (coils : List MbcoilDesc) (req : List Nat) (start_addr : Nat) :
    (mem : List Nat) → (i remaining : Nat) → Mbstatus × List Nat
  | mem, _, 0 => (.MB_OK, mem)
  | mem, i, remaining + 1 =>
    let addr := (start_addr + i) % 65536
    let coil := mbcoil_find_desc coils addr
    let value := (req.getD (6 + i / 8) 0).testBit (i % 8)
    match mbcoil_write mem coil value with
    | (st, mem') =>
      if st ≠ .MB_OK then (st, mem')
      else writeCoilsApply coils req start_addr mem' (i + 1) remaining

/-- `mbfn_write_coils` (FC 0x0F): validate the whole range, then write it and
echo start address and quantity. -/
def mbfn_write_coils (coils : List MbcoilDesc) (req : List Nat) (mem : List Nat) :
    Mbstatus × List Nat × List Nat :=
  if req.getD 0 0 ≠ 0x0F then (.MB_DEV_FAIL, [], mem)
  else if req.length < 7 then (.MB_ILLEGAL_DATA_VAL, [], mem)
  else
    let start_addr := betou16 req 1
    let quantity := betou16 req 3
    let byte_count := req.getD 5 0
    if quantity = 0 ∨ quantity > MBCOIL_N_WRITE_MAX then (.MB_ILLEGAL_DATA_VAL, [], mem)
    else if byte_count ≠ (quantity + 7) / 8 then (.MB_ILLEGAL_DATA_VAL, [], mem)
    else if req.length ≠ 6 + byte_count then (.MB_ILLEGAL_DATA_VAL, [], mem)
    else if ¬ writeCoilsValidate coils start_addr 0 quantity then
      (.MB_ILLEGAL_DATA_ADDR, [], mem)
    else
      match writeCoilsApply coils req start_addr mem 0 quantity with
      | (st, mem') =>
        if st ≠ .MB_OK then (st, [], mem')
        else (.MB_OK, req.getD 0 0 :: (u16tobe start_addr ++ u16tobe quantity), mem')

/-! ## Instance (mbinst.h) -/

/-- Serial-line configuration and host callbacks (`mbinst_s::serial`).
Callbacks are modelled by the values they return; `Bool` fields record mere
presence when the callback has no engine-visible effect. -/
structure MbSerial where
  slave_addr : Nat := 1
  enable_def_resp : Bool := false
  request_restart : Bool := false
  read_diagnostics_cb : Option Nat := none
  reset_diagnostics_cb : Bool := false
  read_exception_status_cb : Option Nat := none

/-- A Modbus slave instance (`struct mbinst_s`): descriptor tables (`none`
models a NULL table pointer), configuration, callbacks and mutable state. -/
structure Mbinst where
  coils : Option (List MbcoilDesc) := none
  disc_inputs : Option (List MbcoilDesc) := none
  hold_regs : Option (List MbregDesc) := none
  input_regs : Option (List MbregDesc) := none
  files : List MbfileDesc := []
  allow_ext_file_recs : Bool := false
  commit_coils_write_cb : Bool := false
  commit_regs_write_cb : Bool := false
  handle_fn_cb : Option (List Nat → Mbstatus × List Nat) := none
  serial : MbSerial := {}
  state : MbState := {}

/-! ## File-record PDU handlers (mbfn_files.c) -/

def MBPDU_DATA_SIZE_MAX : Nat := 252
def WRITE_SUB_REQ_HEADER_SIZE : Nat := 7
def WRITE_SUB_REQ_MIN_SIZE : Nat := WRITE_SUB_REQ_HEADER_SIZE + 2
def WRITE_REQ_MIN_SIZE : Nat := 2 + WRITE_SUB_REQ_MIN_SIZE
def WRITE_REQ_MAX_BYTE_COUNT : Nat := MBPDU_DATA_SIZE_MAX - 2
def REF_TYPE : Nat := 0x06
def MAX_REC_NO : Nat := 0x270F

/-- The validation loop of `mbfn_file_write` over the sub-request bytes
(`req + WRITE_REQ_HEADER_SIZE`): shape, reference type, file-number and
record-number ranges, file existence and `mbfile_write_allowed` for every
sub-request — all before anything is written. -/
def fileWriteValidate (inst : Mbinst) (chunk : List Nat) : Except Mbstatus Unit :=
  if chunk.isEmpty then .ok ()
  else if chunk.length < WRITE_SUB_REQ_MIN_SIZE then .error .MB_ILLEGAL_DATA_VAL
  else if chunk.getD 0 0 ≠ REF_TYPE then .error .MB_ILLEGAL_DATA_VAL
  else
    let file_no := betou16 chunk 1
    let record_no := betou16 chunk 3
    let record_length := betou16 chunk 5
    if file_no = 0 then .error .MB_ILLEGAL_DATA_ADDR
    else if ¬ inst.allow_ext_file_recs ∧ record_no > MAX_REC_NO then
      .error .MB_ILLEGAL_DATA_ADDR
    else if record_length = 0 ∨ record_length * 2 > chunk.length - WRITE_SUB_REQ_HEADER_SIZE then
      .error .MB_ILLEGAL_DATA_VAL
    else
      match mbfile_find inst.files file_no with
      | none => .error .MB_ILLEGAL_DATA_ADDR
      | some file =>
        match mbfile_write_allowed file record_no record_length
            (chunk.drop WRITE_SUB_REQ_HEADER_SIZE) with
        | .MB_OK =>
          fileWriteValidate inst (chunk.drop (WRITE_SUB_REQ_HEADER_SIZE + record_length * 2))
        | st => .error st
termination_by chunk.length
decreasing_by
  simp only [List.length_drop]
  rename_i h1 h2
  simp [List.isEmpty_iff_length_eq_zero] at h1
  omega

/-- The write loop of `mbfn_file_write`: write each sub-request through
`mbfile_write`, re-serialise the sub-request header and copy its data into the
response; a non-OK status aborts (the transaction stays partially applied). -/
def fileWriteApply (inst : Mbinst) (chunk : List Nat) (mem : List Nat) :
    Mbstatus × List Nat × List Nat :=
  if h1 : chunk.isEmpty then (.MB_OK, [], mem)
  else
    let file_no := betou16 chunk 1
    let record_no := betou16 chunk 3
    let record_length := betou16 chunk 5
    let data := chunk.drop WRITE_SUB_REQ_HEADER_SIZE
    let file := mbfile_find inst.files file_no
    match mbfile_write file mem record_no record_length data with
    | (st, mem') =>
      if st ≠ .MB_OK then (st, [], mem')
      else
        match record_length with
        | 0 => (.MB_DEV_FAIL, [], mem')  -- unreachable: validation enforces record_length ≥ 1
        | rl + 1 =>
          match fileWriteApply inst (chunk.drop (WRITE_SUB_REQ_HEADER_SIZE + (rl + 1) * 2)) mem' with
          | (st', res', mem'') =>
            (st',
              (REF_TYPE :: (u16tobe file_no ++ u16tobe record_no ++ u16tobe (rl + 1)
                ++ data.take ((rl + 1) * 2))) ++ res',
              mem'')
termination_by chunk.length
decreasing_by
  have h2 : 0 < chunk.length := by
    cases chunk with
    | nil => simp at h1
    | cons a l => simp
  simp only [List.length_drop, WRITE_SUB_REQ_HEADER_SIZE]
  omega

/-- `mbfn_file_write` (FC 0x15): after shape validation, run the validation
loop over all sub-requests, then the write loop, and finally invoke the
`commit_regs_write` callback; returns additionally the number of times that
callback was invoked.  On success the response echoes the request. -/
def mbfn_file_write (inst : Mbinst) (req : List Nat) (mem : List Nat) :
    Mbstatus × List Nat × List Nat × Nat :=
  if req.getD 0 0 ≠ 0x15 then (.MB_DEV_FAIL, [], mem, 0)
  else if req.length < WRITE_REQ_MIN_SIZE then (.MB_ILLEGAL_DATA_VAL, [], mem, 0)
  else
    let byte_count := req.getD 1 0
    if byte_count < WRITE_SUB_REQ_MIN_SIZE ∨ byte_count > WRITE_REQ_MAX_BYTE_COUNT
        ∨ byte_count ≠ req.length - 2 then
      (.MB_ILLEGAL_DATA_VAL, [], mem, 0)
    else
      match fileWriteValidate inst (req.drop 2) with
      | .error st => (st, [], mem, 0)
      | .ok () =>
        match fileWriteApply inst (req.drop 2) mem with
        | (st, res, mem') =>
          if st ≠ .MB_OK then (st, [], mem', 0)
          else
            (.MB_OK, req.getD 0 0 :: byte_count :: res, mem',
              if inst.commit_regs_write_cb then 1 else 0)

/-! ## Diagnostics handlers (mbfn_diag.c / mbfn_digs.c) -/

/-- `restart_comms_opt` (FC 0x08 sub 0x01): clear listen-only, reset all
counters; data `0xFF00` clears the event-log ring buffer, data `0x0000`
appends a `COMM_RESTART` event; echo the data. -/
def restart_comms_opt (inst : Mbinst) (req : List Nat) (hdr : List Nat) :
    Mbstatus × List Nat × MbState :=
  if req.length ≠ 5 then (.MB_ILLEGAL_DATA_VAL, [], inst.state)
  else
    let val := betou16 req 3
    if val ≠ 0x0000 ∧ val ≠ 0xFF00 then (.MB_ILLEGAL_DATA_VAL, [], inst.state)
    else
      let s := reset_comm_counters { inst.state with is_listen_only := false }
      let s :=
        if val = 0xFF00 then
          { s with event_log_write_pos := 0, event_log_count := 0 }
        else mb_add_comm_event s MB_COMM_EVENT_COMM_RESTART
      (.MB_OK, hdr ++ u16tobe val, s)

/-- `read_counter` (FC 0x08 subs 0x0B–0x12). -/
def read_counter (counter_value : Nat) (req : List Nat) (hdr : List Nat)
    (s : MbState) : Mbstatus × List Nat × MbState :=
  if req.length ≠ 5 then (.MB_ILLEGAL_DATA_VAL, [], s)
  else if betou16 req 3 ≠ 0 then (.MB_ILLEGAL_DATA_VAL, [], s)
  else (.MB_OK, hdr ++ u16tobe counter_value, s)

/-- `mbfn_digs` / `mbfn_diag` (FC 0x08): echo fc and sub-function, then
dispatch on the sub-function code. -/
def mbfn_digs (inst : Mbinst) (req : List Nat) : Mbstatus × List Nat × MbState :=
  let s := inst.state
  if req.length < 3 then (.MB_ILLEGAL_DATA_VAL, [], s)
  else
    let hdr := [req.getD 0 0, req.getD 1 0, req.getD 2 0]
    match betou16 req 1 with
    | 0x00 => (.MB_OK, req, s)
    | 0x01 => restart_comms_opt inst req hdr
    | 0x02 =>
      if req.length ≠ 5 then (.MB_ILLEGAL_DATA_VAL, [], s)
      else if betou16 req 3 ≠ 0 then (.MB_ILLEGAL_DATA_VAL, [], s)
      else (.MB_OK, hdr ++ u16tobe (inst.serial.read_diagnostics_cb.getD 0), s)
    | 0x03 =>
      if req.length ≠ 5 then (.MB_ILLEGAL_DATA_VAL, [], s)
      else if req.getD 3 0 > 127 then (.MB_ILLEGAL_DATA_VAL, [], s)
      else if req.getD 4 0 ≠ 0 then (.MB_ILLEGAL_DATA_VAL, [], s)
      else (.MB_OK, hdr ++ [req.getD 3 0, 0], { s with ascii_delimiter := req.getD 3 0 })
    | 0x04 =>
      if req.length ≠ 5 then (.MB_ILLEGAL_DATA_VAL, [], s)
      else if betou16 req 3 ≠ 0 then (.MB_ILLEGAL_DATA_VAL, [], s)
      else
        (.MB_OK, hdr,
          mb_add_comm_event { s with is_listen_only := true } MB_COMM_EVENT_ENTERED_LISTEN_ONLY)
    | 0x0A =>
      if req.length ≠ 5 then (.MB_ILLEGAL_DATA_VAL, [], s)
      else if betou16 req 3 ≠ 0 then (.MB_ILLEGAL_DATA_VAL, [], s)
      else (.MB_OK, hdr ++ [0, 0], reset_comm_counters s)
    | 0x0B => read_counter s.bus_msg_counter req hdr s
    | 0x0C => read_counter s.bus_comm_err_counter req hdr s
    | 0x0D => read_counter s.exception_counter req hdr s
    | 0x0E => read_counter s.msg_counter req hdr s
    | 0x0F => read_counter s.no_resp_counter req hdr s
    | 0x10 => read_counter s.nak_counter req hdr s
    | 0x11 => read_counter s.busy_counter req hdr s
    | 0x12 => read_counter s.bus_char_overrun_counter req hdr s
    | 0x14 =>
      if req.length ≠ 5 then (.MB_ILLEGAL_DATA_VAL, [], s)
      else if betou16 req 3 ≠ 0 then (.MB_ILLEGAL_DATA_VAL, [], s)
      else (.MB_OK, hdr ++ [0, 0], { s with bus_char_overrun_counter := 0 })
    | _ => (.MB_ILLEGAL_FN, [], s)

/-- `mbfn_comm_event_counter` (FC 0x0B). -/
def mbfn_comm_event_counter (inst : Mbinst) (req : List Nat) : Mbstatus × List Nat :=
  if req.length ≠ 1 then (.MB_ILLEGAL_DATA_VAL, [])
  else
    (.MB_OK,
      req.getD 0 0 :: (u16tobe inst.state.status ++ u16tobe inst.state.comm_event_counter))

/-- `mbfn_comm_event_log` (FC 0x0C): byte count `6 + event count`, status,
comm-event counter, bus-message counter, then the events newest-first. -/
def mbfn_comm_event_log (inst : Mbinst) (req : List Nat) : Mbstatus × List Nat :=
  if req.length ≠ 1 then (.MB_ILLEGAL_DATA_VAL, [])
  else
    let s := inst.state
    (.MB_OK,
      req.getD 0 0 :: ((6 + s.event_log_count % 256) % 256) ::
        (u16tobe s.status ++ u16tobe s.comm_event_counter ++ u16tobe s.bus_msg_counter ++
          (List.range s.event_log_count).map (fun i =>
            s.event_log.getD ((s.event_log_write_pos + MB_COMM_EVENT_LOG_LEN - 1 - i)
              % MB_COMM_EVENT_LOG_LEN) 0)))

/-! ## Register PDU handlers

Modelled from the spec: mbfn_regs.c and mbfn_serial.c are not under src/
(only the dispatcher that calls them is).  The handlers below follow the
contract table of spec §4.5; no claim depends on their internals. -/

/-- Modelled from the spec (§4.5, FC 0x03/0x04): quantity in [1,125], first
address must exist, registers emitted big-endian. -/
def mbfn_read_regs (regs : List MbregDesc) (req : List Nat) (mem : List Nat) :
    Mbstatus × List Nat :=
  if req.length ≠ 5 then (.MB_ILLEGAL_DATA_VAL, [])
  else
    let start_addr := betou16 req 1
    let quantity := betou16 req 3
    if quantity = 0 ∨ quantity > 125 then (.MB_ILLEGAL_DATA_VAL, [])
    else if (mbreg_find_desc regs start_addr).isNone then (.MB_ILLEGAL_DATA_ADDR, [])
    else
      match mbfileReadGo regs mem start_addr quantity 0 with
      | (.deviceErr, _) => (.MB_DEV_FAIL, [])
      | (.illegalAddr, _) => (.MB_ILLEGAL_DATA_ADDR, [])
      | (.ok, bytes) => (.MB_OK, req.getD 0 0 :: 2 * quantity :: bytes)

/-- Modelled from the spec (§4.5, FC 0x06): write a single register word and
echo the request. -/
def mbfn_write_reg (regs : List MbregDesc) (req : List Nat) (mem : List Nat) :
    Mbstatus × List Nat × List Nat :=
  if req.length ≠ 5 then (.MB_ILLEGAL_DATA_VAL, [], mem)
  else
    let addr := betou16 req 1
    match mbreg_find_desc regs addr with
    | none => (.MB_ILLEGAL_DATA_ADDR, [], mem)
    | some reg =>
      if mbreg_write_allowed reg addr addr 1 = 0 then (.MB_ILLEGAL_DATA_ADDR, [], mem)
      else
        match mbreg_write mem (some reg) addr 1 (req.drop 3) with
        | (st, _, mem') =>
          if st ≠ .MB_OK then (st, [], mem')
          else (.MB_OK, req.take 5, mem')

/-- Modelled from the spec (§4.5, FC 0x10): quantity in [1,123], byte count
`2 * quantity`, all targets pre-validated before any write; echo address and
quantity. -/
def mbfn_write_regs (regs : List MbregDesc) (req : List Nat) (mem : List Nat) :
    Mbstatus × List Nat × List Nat :=
  if req.length < 6 then (.MB_ILLEGAL_DATA_VAL, [], mem)
  else
    let start_addr := betou16 req 1
    let quantity := betou16 req 3
    let byte_count := req.getD 5 0
    if quantity = 0 ∨ quantity > 123 then (.MB_ILLEGAL_DATA_VAL, [], mem)
    else if byte_count ≠ 2 * quantity then (.MB_ILLEGAL_DATA_VAL, [], mem)
    else if req.length ≠ 6 + byte_count then (.MB_ILLEGAL_DATA_VAL, [], mem)
    else
      match mbfileWriteAllowedGo regs start_addr quantity (req.drop 6) 0 with
      | .MB_OK =>
        match mbfileWriteGo regs mem start_addr quantity (req.drop 6) 0 with
        | (st, mem') =>
          if st ≠ .MB_OK then (st, [], mem')
          else (.MB_OK, req.getD 0 0 :: (u16tobe start_addr ++ u16tobe quantity), mem')
      | st => (st, [], mem)

/-- Modelled from the spec (§4.5, FC 0x17): read quantity in [1,125], write
quantity in [1,121]; the writes are performed before the reads. -/
def mbfn_read_write_regs (regs : List MbregDesc) (req : List Nat) (mem : List Nat) :
    Mbstatus × List Nat × List Nat :=
  if req.length < 10 then (.MB_ILLEGAL_DATA_VAL, [], mem)
  else
    let read_addr := betou16 req 1
    let read_q := betou16 req 3
    let write_addr := betou16 req 5
    let write_q := betou16 req 7
    let write_bc := req.getD 9 0
    if read_q = 0 ∨ read_q > 125 then (.MB_ILLEGAL_DATA_VAL, [], mem)
    else if write_q = 0 ∨ write_q > 121 then (.MB_ILLEGAL_DATA_VAL, [], mem)
    else if write_bc ≠ 2 * write_q then (.MB_ILLEGAL_DATA_VAL, [], mem)
    else if req.length ≠ 10 + write_bc then (.MB_ILLEGAL_DATA_VAL, [], mem)
    else
      match mbfileWriteAllowedGo regs write_addr write_q (req.drop 10) 0 with
      | .MB_OK =>
        match mbfileWriteGo regs mem write_addr write_q (req.drop 10) 0 with
        | (st, mem') =>
          if st ≠ .MB_OK then (st, [], mem')
          else if (mbreg_find_desc regs read_addr).isNone then
            (.MB_ILLEGAL_DATA_ADDR, [], mem')
          else
            match mbfileReadGo regs mem' read_addr read_q 0 with
            | (.deviceErr, _) => (.MB_DEV_FAIL, [], mem')
            | (.illegalAddr, _) => (.MB_ILLEGAL_DATA_ADDR, [], mem')
            | (.ok, bytes) => (.MB_OK, req.getD 0 0 :: 2 * read_q :: bytes, mem')
      | st => (st, [], mem)

/-- Modelled from the spec (§4.5, FC 0x07): one byte from the host callback. -/
def mbfn_read_exception_status (cb : Nat) (req : List Nat) : Mbstatus × List Nat :=
  if req.length ≠ 1 then (.MB_ILLEGAL_DATA_VAL, [])
  else (.MB_OK, [req.getD 0 0, cb % 256])

/-! ## PDU dispatcher (mbpdu.c) -/

/-- The `handle` switch of mbpdu.c: route on the function code; a NULL
descriptor table makes the code fall through to the `handle_fn_cb` fallback,
and without a fallback the result is `ILLEGAL_FN`. -/
def handlePdu (inst : Mbinst) (mem : List Nat × List Nat) (req : List Nat) :
    Mbstatus × List Nat × MbState × (List Nat × List Nat) :=
  let fallback : Mbstatus × List Nat × MbState × (List Nat × List Nat) :=
    match inst.handle_fn_cb with
    | some f =>
      match f req with
      | (st, r) => (st, r, inst.state, mem)
    | none => (.MB_ILLEGAL_FN, [], inst.state, mem)
  match req.getD 0 0 with
  | 0x01 =>
    match inst.coils with
    | some cs =>
      match mbfn_read_coils cs req mem.1 with
      | (st, r) => (st, r, inst.state, mem)
    | none => fallback
  | 0x02 =>
    match inst.disc_inputs with
    | some cs =>
      match mbfn_read_coils cs req mem.1 with
      | (st, r) => (st, r, inst.state, mem)
    | none => fallback
  | 0x03 =>
    match inst.hold_regs with
    | some rs =>
      match mbfn_read_regs rs req mem.2 with
      | (st, r) => (st, r, inst.state, mem)
    | none => fallback
  | 0x04 =>
    match inst.input_regs with
    | some rs =>
      match mbfn_read_regs rs req mem.2 with
      | (st, r) => (st, r, inst.state, mem)
    | none => fallback
  | 0x05 =>
    match inst.coils with
    | some cs =>
      match mbfn_write_coil cs req mem.1 with
      | (st, r, m') => (st, r, inst.state, (m', mem.2))
    | none => fallback
  | 0x06 =>
    match inst.hold_regs with
    | some rs =>
      match mbfn_write_reg rs req mem.2 with
      | (st, r, m') => (st, r, inst.state, (mem.1, m'))
    | none => fallback
  | 0x07 =>
    match inst.serial.read_exception_status_cb with
    | some cb =>
      match mbfn_read_exception_status cb req with
      | (st, r) => (st, r, inst.state, mem)
    | none => fallback
  | 0x08 =>
    match mbfn_digs inst req with
    | (st, r, s') => (st, r, s', mem)
  | 0x0B =>
    match mbfn_comm_event_counter inst req with
    | (st, r) => (st, r, inst.state, mem)
  | 0x0C =>
    match mbfn_comm_event_log inst req with
    | (st, r) => (st, r, inst.state, mem)
  | 0x0F =>
    match inst.coils with
    | some cs =>
      match mbfn_write_coils cs req mem.1 with
      | (st, r, m') => (st, r, inst.state, (m', mem.2))
    | none => fallback
  | 0x10 =>
    match inst.hold_regs with
    | some rs =>
      match mbfn_write_regs rs req mem.2 with
      | (st, r, m') => (st, r, inst.state, (mem.1, m'))
    | none => fallback
  | 0x17 =>
    match inst.hold_regs with
    | some rs =>
      match mbfn_read_write_regs rs req mem.2 with
      | (st, r, m') => (st, r, inst.state, (mem.1, m'))
    | none => fallback
  | _ => fallback

def MB_ERR_FLG : Nat := 0x80

/-- `mbpdu_handle_req` (mbpdu.c): the listen-only gate, message counting,
dispatch, exception-response building, send-event logging, diagnostic-counter
updates and response suppression.  Returns the response length, the response
bytes, and the updated instance state and host memory. -/
def mbpdu_handle_req (inst : Mbinst) (mem : List Nat × List Nat) (req : List Nat) :
    Nat × List Nat × MbState × (List Nat × List Nat) :=
  if req.length < 1 then (0, [], inst.state, mem)
  else
    let send_event := MB_COMM_EVENT_IS_SEND
    if inst.state.is_listen_only
        ∧ (req.length < 3 ∨ req.getD 0 0 ≠ 0x08 ∨ betou16 req 1 ≠ 0x01) then
      (0, [], mb_add_comm_event inst.state (send_event ||| MB_COMM_EVENT_SEND_LISTEN_ONLY), mem)
    else
      let s0 := { inst.state with msg_counter := incr16 inst.state.msg_counter }
      let was_listen_only := s0.is_listen_only
      match handlePdu { inst with state := s0 } mem req with
      | (status, res, s1, mem') =>
        let resFinal :=
          if status ≠ .MB_OK then [req.getD 0 0 ||| MB_ERR_FLG, status.code] else res
        let send_event :=
          if status ≠ .MB_OK then
            let e := send_event
            let e := if status = .MB_ILLEGAL_FN ∨ status = .MB_ILLEGAL_DATA_ADDR
                ∨ status = .MB_ILLEGAL_DATA_VAL then e ||| MB_COMM_EVENT_SEND_READ_EX else e
            let e := if status = .MB_DEV_FAIL then e ||| MB_COMM_EVENT_SEND_ABORT_EX else e
            let e := if status = .MB_ACK ∨ status = .MB_BUSY then
                e ||| MB_COMM_EVENT_SEND_BUSY_EX else e
            if status = .MB_NEG_ACK then e ||| MB_COMM_EVENT_SEND_NAK_EX else e
          else send_event
        let send_event :=
          if was_listen_only then send_event ||| MB_COMM_EVENT_SEND_LISTEN_ONLY
          else send_event
        let s2 := mb_add_comm_event s1 send_event
        let s2 :=
          if status = .MB_OK ∧ req.getD 0 0 ≠ 0x08 ∧ req.getD 0 0 ≠ 0x0B
              ∧ req.getD 0 0 ≠ 0x0C then
            { s2 with comm_event_counter := incr16 s2.comm_event_counter }
          else s2
        let s2 :=
          if status ≠ .MB_OK then
            { s2 with exception_counter := incr16 s2.exception_counter }
          else s2
        let s2 :=
          if status = .MB_NEG_ACK then { s2 with nak_counter := incr16 s2.nak_counter }
          else s2
        let s2 :=
          if status = .MB_BUSY then { s2 with busy_counter := incr16 s2.busy_counter }
          else s2
        if s2.is_listen_only ∨ was_listen_only then (0, [], s2, mem')
        else (resFinal.length, resFinal, s2, mem')

/-! ## ASCII framer (mbadu_ascii.c) -/

def MBADU_ASCII_START_CHAR : Nat := 0x3A
def MBADU_ASCII_SIZE_MIN : Nat := 11
def MBADU_ASCII_SIZE_MAX : Nat := 513
def MBADU_ADDR_BROADCAST : Nat := 0
def MBADU_ADDR_DEFAULT_RESP : Nat := 0xF8

/-- `xtoi`: hex character to value, `-1` for a non-hex character. -/
def xtoi (c : Nat) : Int :=
  if 48 ≤ c ∧ c ≤ 57 then (c : Int) - 48
  else if 65 ≤ c ∧ c ≤ 70 then (c : Int) - 65 + 10
  else if 97 ≤ c ∧ c ≤ 102 then (c : Int) - 97 + 10
  else -1

/-- `isxdigit` from ctype.h. -/
def isxdigitB (c : Nat) : Bool :=
  (48 ≤ c ∧ c ≤ 57) ∨ (65 ≤ c ∧ c ≤ 70) ∨ (97 ≤ c ∧ c ≤ 102)

/-- One nibble as an upper-case hex character (`"0123456789ABCDEF"`). -/
def hexDigit (x : Nat) : Nat := if x < 10 then 48 + x else 55 + x

/-- `u8tox`: a byte as two hex characters. -/
def u8tox (v : Nat) : List Nat :=
  [hexDigit ((v >>> 4) &&& 0x0F), hexDigit (v &&& 0x0F)]

/-- `calc_lrc`: two's complement of the byte sum, truncated to 8 bits. -/
def calc_lrc (data : List Nat) : Nat :=
  (256 - (data.foldl (· + ·) 0) % 256) % 256

/-- Decode pairs of ASCII hex characters into bytes (the conversion loop of
`mbadu_ascii_handle_req`, with the C `uint8_t` cast made explicit). -/
def decodePairs : List Nat → List Nat
  | a :: b :: rest => ((xtoi a * 16 + xtoi b).emod 256).toNat :: decodePairs rest
  | _ => []

/-- `prep_res`: wrap a binary response as `':' hex(bytes) hex(lrc) CR delim`. -/
def prep_res (delim : Nat) (bin_res : List Nat) : List Nat :=
  MBADU_ASCII_START_CHAR :: ((bin_res.map u8tox).flatten
    ++ u8tox (calc_lrc bin_res) ++ [13, delim])

/-- `mbadu_ascii_handle_req` (mbadu_ascii.c): size bounds, bus-message count,
frame-shape and hex validation, in-place decode, LRC check (before the
slave-address filter), address filter, PDU dispatch, ASCII re-encoding. -/
def mbadu_ascii_handle_req (inst : Mbinst) (mem : List Nat × List Nat)
    (req : List Nat) : Nat × List Nat × MbState × (List Nat × List Nat) :=
  if req.length < MBADU_ASCII_SIZE_MIN ∨ req.length > MBADU_ASCII_SIZE_MAX then
    (0, [], inst.state, mem)
  else
    let s := { inst.state with bus_msg_counter := incr16 inst.state.bus_msg_counter }
    let recv_event := if s.is_listen_only then MB_COMM_EVENT_RECV_LISTEN_MODE else 0
    if req.getD 0 0 ≠ MBADU_ASCII_START_CHAR
        ∨ req.getD (req.length - 2) 0 ≠ 13
        ∨ req.getD (req.length - 1) 0 ≠ s.ascii_delimiter
        ∨ (req.length - 1) % 2 ≠ 0 then
      (0, [],
        if recv_event ≠ 0 then mb_add_comm_event s (MB_COMM_EVENT_IS_RECV ||| recv_event)
        else s, mem)
    else if ¬ ((List.range' 1 (req.length - 3)).all fun i => isxdigitB (req.getD i 0)) then
      (0, [],
        if recv_event ≠ 0 then mb_add_comm_event s (MB_COMM_EVENT_IS_RECV ||| recv_event)
        else s, mem)
    else
      let req_bin := decodePairs ((req.drop 1).take (req.length - 3))
      let recv_lrc := req_bin.getD (req_bin.length - 1) 0
      if recv_lrc ≠ calc_lrc (req_bin.take (req_bin.length - 1)) then
        let s := { s with bus_comm_err_counter := incr16 s.bus_comm_err_counter }
        (0, [],
          mb_add_comm_event s
            (MB_COMM_EVENT_IS_RECV ||| (recv_event ||| MB_COMM_EVENT_RECV_COMM_ERR)),
          mem)
      else
        let recv_slave_addr := req_bin.getD 0 0
        if recv_slave_addr ≠ inst.serial.slave_addr
            ∧ recv_slave_addr ≠ MBADU_ADDR_BROADCAST
            ∧ (¬ inst.serial.enable_def_resp ∨ recv_slave_addr ≠ MBADU_ADDR_DEFAULT_RESP) then
          (0, [],
            if recv_event ≠ 0 then mb_add_comm_event s (MB_COMM_EVENT_IS_RECV ||| recv_event)
            else s, mem)
        else
          let recv_event :=
            if recv_slave_addr = MBADU_ADDR_BROADCAST then
              recv_event ||| MB_COMM_EVENT_RECV_BROADCAST
            else recv_event
          let s :=
            if recv_event ≠ 0 then mb_add_comm_event s (MB_COMM_EVENT_IS_RECV ||| recv_event)
            else s
          match mbpdu_handle_req { inst with state := s } mem
              ((req_bin.drop 1).take (req_bin.length - 2)) with
          | (res_pdu_len, res_pdu, s', mem') =>
            if res_pdu_len = 0 ∨ recv_slave_addr = MBADU_ADDR_BROADCAST then
              (0, [], { s' with no_resp_counter := incr16 s'.no_resp_counter }, mem')
            else
              let out := prep_res s'.ascii_delimiter (recv_slave_addr :: res_pdu)
              (out.length, out, s', mem')

/-! ## Derived per-address coil observations (used in theorem statements) -/

/-- Whether the coil at `addr` reads as ON (missing coils read as OFF). -/
def coilOn (mem : List Nat) (coils : List MbcoilDesc) (addr : Nat) : Bool :=
  match mbcoil_find_desc coils addr with
  | some c => mbcoil_read mem c = .on
  | none => false

/-- Whether reading the coil at `addr` cannot abort a read-coils request:
the coil is missing, or reads as OFF / ON / NO_ACCESS. -/
def coilReadBenign (mem : List Nat) (coils : List MbcoilDesc) (addr : Nat) : Bool :=
  match mbcoil_find_desc coils addr with
  | some c =>
    match mbcoil_read mem c with
    | .off => true
    | .on => true
    | .noAccess => true
    | _ => false
  | none => true

/-! ## Concrete fixtures used by witnesses and counterexamples -/

/-- A listen-only instance with non-trivial counters and a full event log. -/
def instListen : Mbinst :=
  { state := { is_listen_only := true, msg_counter := 5, bus_msg_counter := 7,
               exception_counter := 2, event_log := List.replicate 64 9,
               event_log_write_pos := 3, event_log_count := 3 } }

/-- A small coil table: address 5 reads ON, address 7 exists with no read
access, address 6 is missing. -/
def coilsRead : List MbcoilDesc :=
  [{ address := 5, rd := .val 1 }, { address := 7 }]

/-- A coil table whose second coil (address 6) is read-locked. -/
def coilsLocked : List MbcoilDesc :=
  [{ address := 5, rd := .val 1 }, { address := 6, rlock_cb := some true }]

/-- A coil table with a single writable coil at address 5 (bit 0 of cell 0). -/
def coilsWrite : List MbcoilDesc :=
  [{ address := 5, wr := .ptr (some 0) 0 }]

/-- The ASCII frame `":1103006B00037D\r\n"` — a Read Holding Registers frame
for slave 17 whose LRC byte is wrong (`7D` instead of `7E`). -/
def asciiFrameBadLrc : List Nat :=
  [0x3A, 0x31, 0x31, 0x30, 0x33, 0x30, 0x30, 0x36, 0x42,
   0x30, 0x30, 0x30, 0x33, 0x37, 0x44, 13, 10]

/-- An instance with file 4 holding two writable pointer registers at
record addresses 1 and 2 (word cells 0 and 1), and a commit callback. -/
def instFiles : Mbinst :=
  { files := [{ file_no := 4,
                records := [{ address := 1, wacc := .ptr 0 },
                            { address := 2, wacc := .ptr 1 }] }],
    commit_regs_write_cb := true }

/-- A Write File Record request: file 4, records 1–2, data 0x1234 0xABCD. -/
def fileWriteReq : List Nat :=
  [0x15, 0x0B, 0x06, 0x00, 0x04, 0x00, 0x01, 0x00, 0x02, 0x12, 0x34, 0xAB, 0xCD]

/-- A file with a readable register at record 10, nothing at 11, a
read-locked register at 12 and a device-failing register at 13. -/
def fileReadFix : MbfileDesc :=
  { file_no := 3,
    records := [{ address := 10, racc := .val [0x1234] },
                { address := 12, rlocked := true, racc := .val [7] },
                { address := 13, racc := .fn none }] }

/-- Seventeen coil descriptors with ascending addresses 5, 15, …, 165 — large
enough that the lookup takes the binary-search path. -/
def coilTbl17 : List MbcoilDesc :=
  (List.range 17).map (fun i => { address := 10 * i + 5, rd := .val 1 })

/-- Seventeen file descriptors with ascending file numbers 5, 15, …, 165. -/
def fileTbl17 : List MbfileDesc :=
  (List.range 17).map (fun i => { file_no := 10 * i + 5, records := [] })

end ModbusSlave

namespace ModbusSlave

/-! # Theorems settling the claims -/

/-- **C1**: for every instance in listen-only mode and every request PDU that
is not the restart-communications diagnostic (FC 0x08, sub-function 0x01),
`mbpdu_handle_req` returns length 0 (and no response bytes), leaves
`msg_counter` and every other counter and the host memory unchanged, and
appends exactly one event byte whose bits are exactly `IS_SEND` (bit 6) and
`SEND_LISTEN_ONLY` (bit 5). -/
theorem c1_listen_only_gate (inst : Mbinst) (mem : List Nat × List Nat)
    (req : List Nat) (hlen : 1 ≤ req.length)
    (hlisten : inst.state.is_listen_only = true)
    (hnotrestart : req.length < 3 ∨ req.getD 0 0 ≠ 0x08 ∨ betou16 req 1 ≠ 0x01) :
    mbpdu_handle_req inst mem req =
      (0, [],
        mb_add_comm_event inst.state
          (MB_COMM_EVENT_IS_SEND ||| MB_COMM_EVENT_SEND_LISTEN_ONLY),
        mem) := by
  unfold mbpdu_handle_req
  rw [if_neg (by omega)]
  rw [if_pos ⟨hlisten, hnotrestart⟩]

/-- Witness for C1 at a concrete listen-only instance and a FC 0x03 request. -/
theorem c1_listen_only_gate_witness :
    mbpdu_handle_req instListen ([], []) [0x03, 0, 0, 0, 1] =
      (0, [],
        mb_add_comm_event instListen.state
          (MB_COMM_EVENT_IS_SEND ||| MB_COMM_EVENT_SEND_LISTEN_ONLY),
        ([], [])) :=
  c1_listen_only_gate instListen ([], []) [0x03, 0, 0, 0, 1]
    (by decide) (by decide) (by decide)

/-- **C2 (amended)**: processing FC 0x08 / sub 0x01 / data 0xFF00 in
listen-only mode clears `is_listen_only`, zeroes all nine counters, clears the
event-log ring buffer and then appends exactly one send event
(`IS_SEND ||| SEND_LISTEN_ONLY`) to it; the returned length is 0 (the response
is suppressed because the device was listen-only before the request), and a
subsequent FC 0x0C request returns byte count 7, its single event byte being
that send event. -/
theorem c2_restart_in_listen_only (inst : Mbinst) (mem : List Nat × List Nat)
    (hlisten : inst.state.is_listen_only = true)
    (hlog : inst.state.event_log.length = 64) :
    mbpdu_handle_req inst mem [0x08, 0x00, 0x01, 0xFF, 0x00] =
      (0, [],
        { inst.state with
          is_listen_only := false
          comm_event_counter := 0
          bus_msg_counter := 0
          bus_comm_err_counter := 0
          exception_counter := 0
          msg_counter := 0
          no_resp_counter := 0
          nak_counter := 0
          busy_counter := 0
          bus_char_overrun_counter := 0
          event_log := inst.state.event_log.set 0
            (MB_COMM_EVENT_IS_SEND ||| MB_COMM_EVENT_SEND_LISTEN_ONLY)
          event_log_write_pos := 1
          event_log_count := 1 },
        mem) ∧
    ((mbpdu_handle_req
        { inst with state := (mbpdu_handle_req inst mem [0x08, 0x00, 0x01, 0xFF, 0x00]).2.2.1 }
        mem [0x0C]).2.1.getD 1 0 = 7 ∧
      (mbpdu_handle_req
        { inst with state := (mbpdu_handle_req inst mem [0x08, 0x00, 0x01, 0xFF, 0x00]).2.2.1 }
        mem [0x0C]).2.1.getD 8 0 =
          (MB_COMM_EVENT_IS_SEND ||| MB_COMM_EVENT_SEND_LISTEN_ONLY)) := by
  obtain ⟨c, di, hr, ir, fs, ax, ccw, crw, hf, ser, st⟩ := inst
  obtain ⟨lo, stw, ad, cec, bmc, bce, exc, msg, nr, nak, busy, ovr, log, wp, cnt⟩ := st
  simp only [MbState.mk.injEq] at hlisten ⊢
  subst hlisten
  simp only at hlog
  refine ⟨?_, ?_, ?_⟩
  · rfl
  · rfl
  · show (([0x0C, _, _, _, _, _, _, _] ++
        (List.range 1).map (fun i => ((log.set 0 96).getD ((1 + 64 - 1 - i) % 64) 0))).getD 8 0) = 96
    have h0 : (log.set 0 96)[(0 : Nat)]? = some 96 :=
      List.getElem?_set_eq_of_lt 96 (by omega)
    simp [List.getD_append, List.getD, h0]

/-- Witness for C2 at a concrete listen-only instance. -/
theorem c2_restart_in_listen_only_witness :
    mbpdu_handle_req instListen ([], []) [0x08, 0x00, 0x01, 0xFF, 0x00] =
      (0, [],
        { instListen.state with
          is_listen_only := false
          comm_event_counter := 0
          bus_msg_counter := 0
          bus_comm_err_counter := 0
          exception_counter := 0
          msg_counter := 0
          no_resp_counter := 0
          nak_counter := 0
          busy_counter := 0
          bus_char_overrun_counter := 0
          event_log := instListen.state.event_log.set 0
            (MB_COMM_EVENT_IS_SEND ||| MB_COMM_EVENT_SEND_LISTEN_ONLY)
          event_log_write_pos := 1
          event_log_count := 1 },
        ([], [])) ∧
    ((mbpdu_handle_req
        { instListen with
          state := (mbpdu_handle_req instListen ([], []) [0x08, 0x00, 0x01, 0xFF, 0x00]).2.2.1 }
        ([], []) [0x0C]).2.1.getD 1 0 = 7 ∧
      (mbpdu_handle_req
        { instListen with
          state := (mbpdu_handle_req instListen ([], []) [0x08, 0x00, 0x01, 0xFF, 0x00]).2.2.1 }
        ([], []) [0x0C]).2.1.getD 8 0 =
          (MB_COMM_EVENT_IS_SEND ||| MB_COMM_EVENT_SEND_LISTEN_ONLY)) :=
  c2_restart_in_listen_only instListen ([], []) (by decide) (by decide)

/-- **C2, counterexample to the claim as stated**: at a concrete listen-only
instance, the restart request FC 0x08 / 0x01 / 0xFF00 returns length 0 (no
response is emitted, contradicting "a response is emitted"), and the
subsequent FC 0x0C request returns byte count 7, not 6. -/
theorem c2_counterexample :
    (mbpdu_handle_req instListen ([], []) [0x08, 0x00, 0x01, 0xFF, 0x00]).1 = 0 ∧
    (mbpdu_handle_req
        { instListen with
          state := (mbpdu_handle_req instListen ([], []) [0x08, 0x00, 0x01, 0xFF, 0x00]).2.2.1 }
        ([], []) [0x0C]).2.1.getD 1 0 ≠ 6 := by
  constructor
  · rfl
  · decide

/-- **C8**: for every instance state with a well-formed event count, the
response to FC 0x0C is: byte count `6 + event count`, status (be16),
`comm_event_counter` (be16), `bus_msg_counter` (be16), followed by the event
bytes newest-first, the `i`-th being
`event_log[(write_pos + 64 - 1 - i) mod 64]` for `i ∈ [0, count)`. -/
theorem c8_comm_event_log (inst : Mbinst)
    (hcnt : inst.state.event_log_count ≤ 64) :
    mbfn_comm_event_log inst [0x0C] =
      (.MB_OK,
        0x0C :: (6 + inst.state.event_log_count) ::
          (u16tobe inst.state.status ++ u16tobe inst.state.comm_event_counter ++
            u16tobe inst.state.bus_msg_counter ++
            (List.range inst.state.event_log_count).map (fun i =>
              inst.state.event_log.getD
                ((inst.state.event_log_write_pos + 64 - 1 - i) % 64) 0))) := by
  unfold mbfn_comm_event_log
  rw [if_neg (by simp)]
  have h6 : (6 + inst.state.event_log_count % 256) % 256 =
      6 + inst.state.event_log_count := by omega
  simp [h6, MB_COMM_EVENT_LOG_LEN]

/-- Witness for C8 at a concrete instance with three logged events. -/
theorem c8_comm_event_log_witness :
    mbfn_comm_event_log instListen [0x0C] =
      (.MB_OK,
        0x0C :: (6 + instListen.state.event_log_count) ::
          (u16tobe instListen.state.status ++ u16tobe instListen.state.comm_event_counter ++
            u16tobe instListen.state.bus_msg_counter ++
            (List.range instListen.state.event_log_count).map (fun i =>
              instListen.state.event_log.getD
                ((instListen.state.event_log_write_pos + 64 - 1 - i) % 64) 0))) :=
  c8_comm_event_log instListen (by decide)

/-- Helper for C3: a bad coil (missing, or write-locked) anywhere in the range
makes the pre-validation loop of `mbfn_write_coils` fail. -/
theorem writeCoilsValidate_eq_false (coils : List MbcoilDesc) (start : Nat) :
    ∀ (q i j : Nat), j < q →
    (mbcoil_find_desc coils ((start + (i + j)) % 65536) = none ∨
      (∃ c, mbcoil_find_desc coils ((start + (i + j)) % 65536) = some c ∧
        mbcoil_write_allowed c = false)) →
    writeCoilsValidate coils start i q = false := by
  intro q
  induction q with
  | zero => intro i j hj; omega
  | succ q ih =>
    intro i j hj hbad
    show writeCoilsValidate coils start i (q + 1) = false
    rcases hfind : mbcoil_find_desc coils ((start + i) % 65536) with _ | c
    · simp [writeCoilsValidate, hfind]
    · by_cases hal : mbcoil_write_allowed c = true
      · have hstep : writeCoilsValidate coils start i (q + 1) =
            writeCoilsValidate coils start (i + 1) q := by
          simp [writeCoilsValidate, hfind, hal]
        rw [hstep]
        cases j with
        | zero =>
          exfalso
          rw [Nat.add_zero] at hbad
          rcases hbad with hmiss | ⟨c', hc', hal'⟩
          · rw [hfind] at hmiss
            exact absurd hmiss (by simp)
          · rw [hfind] at hc'
            cases hc'
            rw [hal] at hal'
            exact absurd hal' (by simp)
        | succ j =>
          refine ih (i + 1) j (by omega) ?_
          have harr : i + 1 + j = i + (j + 1) := by omega
          rw [harr]
          exact hbad
      · simp [writeCoilsValidate, hfind, hal]

/-- **C3**: for every shape-valid Write Multiple Coils request (FC 0x0F), if
any of the `quantity` target addresses has no descriptor or a closed
write-lock, the handler returns `ILLEGAL_DATA_ADDR` and the coil storage is
unchanged (every target is validated before any coil is written). -/
theorem c3_write_coils_prevalidation (coils : List MbcoilDesc) (req mem : List Nat)
    (hfc : req.getD 0 0 = 0x0F) (hlen : 7 ≤ req.length)
    (hq1 : 1 ≤ betou16 req 3) (hq2 : betou16 req 3 ≤ 1968)
    (hbc : req.getD 5 0 = (betou16 req 3 + 7) / 8)
    (hrl : req.length = 6 + req.getD 5 0)
    (hbad : ∃ j, j < betou16 req 3 ∧
      (mbcoil_find_desc coils ((betou16 req 1 + j) % 65536) = none ∨
        (∃ c, mbcoil_find_desc coils ((betou16 req 1 + j) % 65536) = some c ∧
          mbcoil_write_allowed c = false))) :
    mbfn_write_coils coils req mem = (.MB_ILLEGAL_DATA_ADDR, [], mem) := by
  obtain ⟨j, hj, hbadj⟩ := hbad
  have hval : writeCoilsValidate coils (betou16 req 1) 0 (betou16 req 3) = false := by
    refine writeCoilsValidate_eq_false coils (betou16 req 1) (betou16 req 3) 0 j hj ?_
    simpa using hbadj
  unfold mbfn_write_coils
  simp only [List.getD_eq_getElem?_getD] at hfc hbc hrl
  rw [if_neg (by simp [hfc])]
  rw [if_neg (by omega)]
  rw [if_neg (by simp only [MBCOIL_N_WRITE_MAX]; omega)]
  rw [if_neg (by simp only [List.getD_eq_getElem?_getD]; omega)]
  rw [if_neg (by simp only [List.getD_eq_getElem?_getD]; omega)]
  rw [if_pos (by simp [hval])]

/-- Witness for C3: quantity 2 starting at address 5, address 6 missing. -/
theorem c3_write_coils_prevalidation_witness :
    mbfn_write_coils coilsWrite [0x0F, 0, 5, 0, 2, 1, 3] [0] =
      (.MB_ILLEGAL_DATA_ADDR, [], [0]) :=
  c3_write_coils_prevalidation coilsWrite [0x0F, 0, 5, 0, 2, 1, 3] [0]
    (by decide) (by decide) (by decide) (by decide) (by decide) (by decide)
    ⟨1, by decide, Or.inl rfl⟩

/-- Bit `i` of `byteOfBits l` is the `i`-th entry of `l`. -/
theorem byteOfBits_testBit (l : List Bool) : ∀ i,
    (byteOfBits l).testBit i = l.getD i false := by
  induction l with
  | nil => intro i; simp [byteOfBits, Nat.zero_testBit, List.getD]
  | cons b t ih =>
    intro i
    have hb : byteOfBits (b :: t) = (if b then 1 else 0) + 2 * byteOfBits t := rfl
    cases i with
    | zero =>
      rw [hb, Nat.testBit_zero]
      cases b <;> simp [Nat.add_mul_mod_self_left, Nat.mul_mod_right]
    | succ i =>
      rw [hb, Nat.testBit_add_one]
      have hd : ((if b then 1 else 0) + 2 * byteOfBits t) / 2 = byteOfBits t := by
        cases b <;> simp <;> omega
      rw [hd, ih]
      rfl

/-- `packBits` produces `⌈n/8⌉` bytes from `n` bits. -/
theorem packBits_length (l : List Bool) :
    (packBits l).length = (l.length + 7) / 8 := by
  induction l using packBits.induct with
  | case1 => simp [packBits]
  | case2 b rest ih =>
    rw [packBits]
    simp only [List.length_cons, List.length_drop] at *
    omega

/-- Bit `i % 8` of byte `i / 8` of `packBits l` is the `i`-th bit of `l`. -/
theorem packBits_testBit (l : List Bool) : ∀ i, i < l.length →
    ((packBits l).getD (i / 8) 0).testBit (i % 8) = l.getD i false := by
  induction l using packBits.induct with
  | case1 => intro i hi; simp at hi
  | case2 b rest ih =>
    intro i hi
    rw [packBits]
    by_cases h8 : i < 8
    · have hdiv : i / 8 = 0 := by omega
      have hmod : i % 8 = i := by omega
      rw [hdiv, hmod]
      have : ((byteOfBits ((b :: rest).take 8) :: packBits ((b :: rest).drop 8)).getD 0 0)
          = byteOfBits ((b :: rest).take 8) := rfl
      rw [this, byteOfBits_testBit]
      simp only [List.getD_eq_getElem?_getD]
      rw [List.getElem?_take, if_pos h8]
    · have hdiv : i / 8 = (i - 8) / 8 + 1 := by omega
      have hmod : i % 8 = (i - 8) % 8 := by omega
      have hstep : ((byteOfBits ((b :: rest).take 8) :: packBits ((b :: rest).drop 8)).getD
          ((i - 8) / 8 + 1) 0) = (packBits ((b :: rest).drop 8)).getD ((i - 8) / 8) 0 := rfl
      have hlt : i - 8 < ((b :: rest).drop 8).length := by
        rw [List.length_drop]
        simp only [List.length_cons] at hi ⊢
        omega
      rw [hdiv, hmod, hstep, ih (i - 8) hlt]
      simp only [List.getD_eq_getElem?_getD]
      rw [List.getElem?_drop, show 8 + (i - 8) = i from by omega]

/-- The read-coils loop never fails with status OK. -/
theorem readCoilsGo_error_ne_ok (mem : List Nat) (coils : List MbcoilDesc)
    (start : Nat) : ∀ (q i : Nat),
    readCoilsGo mem coils start i q ≠ .error .MB_OK := by
  intro q
  induction q with
  | zero => intro i h; simp [readCoilsGo] at h
  | succ q ih =>
    intro i h
    rcases hfind : mbcoil_find_desc coils ((start + i) % 65536) with _ | c
    · rcases hrec : readCoilsGo mem coils start (i + 1) q with st | bs
      · simp [readCoilsGo, hfind, hrec] at h
        exact ih (i + 1) (by rw [hrec, h])
      · simp [readCoilsGo, hfind, hrec] at h
    · rcases hread : mbcoil_read mem c with _ | _ | _ | _ | _ <;>
        rcases hrec : readCoilsGo mem coils start (i + 1) q with st | bs <;>
        simp [readCoilsGo, hfind, hread, hrec] at h <;>
        exact ih (i + 1) (by rw [hrec, h])

/-- When the read-coils loop succeeds, it produces one bit per address, the
`j`-th bit being exactly the ON-state of the coil at `start + i + j`
(missing and read-denied coils contribute `false`). -/
theorem readCoilsGo_ok (mem : List Nat) (coils : List MbcoilDesc) (start : Nat) :
    ∀ (q i : Nat) (bs : List Bool),
    readCoilsGo mem coils start i q = .ok bs →
    bs.length = q ∧
      ∀ j, j < q → bs.getD j false = coilOn mem coils ((start + (i + j)) % 65536) := by
  intro q
  induction q with
  | zero =>
    intro i bs h
    simp [readCoilsGo] at h
    simp [← h]
  | succ q ih =>
    intro i bs h
    have step : ∀ (b : Bool) (bs' : List Bool),
        bs = b :: bs' →
        readCoilsGo mem coils start (i + 1) q = .ok bs' →
        b = coilOn mem coils ((start + (i + 0)) % 65536) →
        bs.length = q + 1 ∧
          ∀ j, j < q + 1 →
            bs.getD j false = coilOn mem coils ((start + (i + j)) % 65536) := by
      intro b bs' hbs hrec hb
      obtain ⟨hlen, hbits⟩ := ih (i + 1) bs' hrec
      subst hbs
      refine ⟨by simp [hlen], ?_⟩
      intro j hj
      cases j with
      | zero => simpa using hb
      | succ j =>
        have harr : i + 1 + j = i + (j + 1) := by omega
        have := hbits j (by omega)
        rw [harr] at this
        simpa using this
    rcases hfind : mbcoil_find_desc coils ((start + i) % 65536) with _ | c
    · rcases hrec : readCoilsGo mem coils start (i + 1) q with st | bs'
      · simp [readCoilsGo, hfind, hrec] at h
      · simp [readCoilsGo, hfind, hrec] at h
        exact step false bs' (by rw [← h]) hrec
          (by simp [coilOn, Nat.add_zero, hfind])
    · rcases hread : mbcoil_read mem c with _ | _ | _ | _ | _ <;>
        rcases hrec : readCoilsGo mem coils start (i + 1) q with st | bs' <;>
        simp [readCoilsGo, hfind, hread, hrec] at h
      · exact step false bs' (by rw [← h]) hrec
          (by simp [coilOn, Nat.add_zero, hfind, hread])
      · exact step true bs' (by rw [← h]) hrec
          (by simp [coilOn, Nat.add_zero, hfind, hread])
      · exact step false bs' (by rw [← h]) hrec
          (by simp [coilOn, Nat.add_zero, hfind, hread])

/-- If every coil of the range is benign the read-coils loop succeeds. -/
theorem readCoilsGo_benign_ok (mem : List Nat) (coils : List MbcoilDesc)
    (start : Nat) : ∀ (q i : Nat),
    (∀ j, j < q → coilReadBenign mem coils ((start + (i + j)) % 65536) = true) →
    ∃ bs, readCoilsGo mem coils start i q = .ok bs := by
  intro q
  induction q with
  | zero => intro i _; exact ⟨[], rfl⟩
  | succ q ih =>
    intro i hben
    obtain ⟨bs, hbs⟩ := ih (i + 1) (fun j hj => by
      have := hben (j + 1) (by omega)
      rwa [show i + (j + 1) = i + 1 + j by omega] at this)
    have hb0 := hben 0 (by omega)
    rw [Nat.add_zero] at hb0
    unfold coilReadBenign at hb0
    rcases hfind : mbcoil_find_desc coils ((start + i) % 65536) with _ | c
    · exact ⟨false :: bs, by simp [readCoilsGo, hfind, hbs]⟩
    · rw [hfind] at hb0
      rcases hread : mbcoil_read mem c with _ | _ | _ | _ | _
      · exact ⟨false :: bs, by simp [readCoilsGo, hfind, hread, hbs]⟩
      · exact ⟨true :: bs, by simp [readCoilsGo, hfind, hread, hbs]⟩
      · simp [hread] at hb0
      · exact ⟨false :: bs, by simp [readCoilsGo, hfind, hread, hbs]⟩
      · simp [hread] at hb0

/-- A read-locked coil at position `j0`, with benign coils before it, makes
the read-coils loop fail with `ILLEGAL_DATA_ADDR`. -/
theorem readCoilsGo_locked (mem : List Nat) (coils : List MbcoilDesc)
    (start : Nat) : ∀ (j0 q i : Nat), j0 < q →
    (∀ j, j < j0 → coilReadBenign mem coils ((start + (i + j)) % 65536) = true) →
    (∃ c, mbcoil_find_desc coils ((start + (i + j0)) % 65536) = some c ∧
      mbcoil_read mem c = .locked) →
    readCoilsGo mem coils start i q = .error .MB_ILLEGAL_DATA_ADDR := by
  intro j0
  induction j0 with
  | zero =>
    intro q i hj0 _ hlock
    obtain ⟨c, hc, hl⟩ := hlock
    rw [Nat.add_zero] at hc
    obtain ⟨q', rfl⟩ : ∃ q', q = q' + 1 := ⟨q - 1, by omega⟩
    simp [readCoilsGo, hc, hl]
  | succ j0 ih =>
    intro q i hj0 hben hlock
    obtain ⟨q', rfl⟩ : ∃ q', q = q' + 1 := ⟨q - 1, by omega⟩
    have hb0 := hben 0 (by omega)
    rw [Nat.add_zero] at hb0
    have hrec : readCoilsGo mem coils start (i + 1) q' = .error .MB_ILLEGAL_DATA_ADDR := by
      refine ih q' (i + 1) (by omega) ?_ ?_
      · intro j hj
        have := hben (j + 1) (by omega)
        rwa [show i + (j + 1) = i + 1 + j by omega] at this
      · obtain ⟨c, hc, hl⟩ := hlock
        exact ⟨c, by rwa [show i + 1 + j0 = i + (j0 + 1) by omega], hl⟩
    unfold coilReadBenign at hb0
    rcases hfind : mbcoil_find_desc coils ((start + i) % 65536) with _ | c
    · simp [readCoilsGo, hfind, hrec]
    · rw [hfind] at hb0
      rcases hread : mbcoil_read mem c with _ | _ | _ | _ | _
      · simp [readCoilsGo, hfind, hread, hrec]
      · simp [readCoilsGo, hfind, hread, hrec]
      · simp [hread] at hb0
      · simp [readCoilsGo, hfind, hread, hrec]
      · simp [hread] at hb0

/-- Reduction of `mbfn_read_coils` to its read loop once the shape checks
pass and the first address exists. -/
theorem mbfn_read_coils_reduce (coils : List MbcoilDesc) (req mem : List Nat)
    (hfc : req.getD 0 0 = 0x01) (hlen : req.length = 5)
    (hq1 : 1 ≤ betou16 req 3) (hq2 : betou16 req 3 ≤ 2000)
    (hfirst : (mbcoil_find_desc coils (betou16 req 1)).isSome = true) :
    mbfn_read_coils coils req mem =
      match readCoilsGo mem coils (betou16 req 1) 0 (betou16 req 3) with
      | .error st => (st, [])
      | .ok bits =>
        (.MB_OK, req.getD 0 0 :: (betou16 req 3 + 7) / 8 :: packBits bits) := by
  unfold mbfn_read_coils
  simp only [List.getD_eq_getElem?_getD] at hfc
  rw [if_neg (by simp [hfc])]
  rw [if_neg (by omega)]
  rw [if_neg (by simp only [MBCOIL_N_READ_MAX]; omega)]
  rw [if_neg (by
    simp only [Option.isNone_iff_eq_none]
    exact Option.ne_none_iff_isSome.mpr hfirst)]

/-- **C6**: for every Read Coils request (FC 0x01, 5-byte PDU) against a coil
table: a quantity of 0 or above 2000 yields `ILLEGAL_DATA_VAL`; a missing
first address yields `ILLEGAL_DATA_ADDR`; otherwise, on success the response
is `[fc, ⌈q/8⌉, …⌈q/8⌉ packed bytes…]` and every later address without a
descriptor contributes bit 0 (LSB-first per address). -/
theorem c6_read_coils (coils : List MbcoilDesc) (req mem : List Nat)
    (hfc : req.getD 0 0 = 0x01) (hlen : req.length = 5) :
    ((betou16 req 3 = 0 ∨ betou16 req 3 > 2000) →
      mbfn_read_coils coils req mem = (.MB_ILLEGAL_DATA_VAL, [])) ∧
    (1 ≤ betou16 req 3 → betou16 req 3 ≤ 2000 →
      mbcoil_find_desc coils (betou16 req 1) = none →
      mbfn_read_coils coils req mem = (.MB_ILLEGAL_DATA_ADDR, [])) ∧
    (∀ res, mbfn_read_coils coils req mem = (.MB_OK, res) →
      res.length = 2 + (betou16 req 3 + 7) / 8 ∧
      res.getD 1 0 = (betou16 req 3 + 7) / 8 ∧
      ∀ j, j < betou16 req 3 →
        mbcoil_find_desc coils ((betou16 req 1 + j) % 65536) = none →
        (res.getD (2 + j / 8) 0).testBit (j % 8) = false) := by
  have hfc' : req[0]?.getD 0 = 0x01 := by
    rw [← List.getD_eq_getElem?_getD]; exact hfc
  refine ⟨?_, ?_, ?_⟩
  · intro hq
    unfold mbfn_read_coils
    rw [if_neg (by simp [hfc'])]
    rw [if_neg (by omega)]
    rw [if_pos (by simp only [MBCOIL_N_READ_MAX]; omega)]
  · intro hq1 hq2 hmiss
    unfold mbfn_read_coils
    rw [if_neg (by simp [hfc'])]
    rw [if_neg (by omega)]
    rw [if_neg (by simp only [MBCOIL_N_READ_MAX]; omega)]
    rw [if_pos (by simp [hmiss])]
  · intro res h
    by_cases hq0 : betou16 req 3 = 0 ∨ betou16 req 3 > 2000
    · exfalso
      unfold mbfn_read_coils at h
      rw [if_neg (by simp [hfc'])] at h
      rw [if_neg (by omega)] at h
      rw [if_pos (by simp only [MBCOIL_N_READ_MAX]; omega)] at h
      simp at h
    · push_neg at hq0
      by_cases hfirst : (mbcoil_find_desc coils (betou16 req 1)).isSome = true
      · rw [mbfn_read_coils_reduce coils req mem hfc hlen (by omega) (by omega) hfirst] at h
        rcases hgo : readCoilsGo mem coils (betou16 req 1) 0 (betou16 req 3) with st | bits
        · rw [hgo] at h
          simp at h
          exact absurd (by rw [hgo, h.1]) (readCoilsGo_error_ne_ok mem coils (betou16 req 1)
            (betou16 req 3) 0)
        · rw [hgo] at h
          simp at h
          obtain ⟨hlenbits, hbits⟩ := readCoilsGo_ok mem coils (betou16 req 1)
            (betou16 req 3) 0 bits hgo
          rw [← h]
          refine ⟨?_, ?_, ?_⟩
          · rw [List.length_cons, List.length_cons, packBits_length, hlenbits]
            omega
          · rfl
          · intro j hj hmiss
            have hidx : (2 + j / 8) = (j / 8) + 2 := by omega
            have hcons : ((req[0]?.getD 0 :: (betou16 req 3 + 7) / 8 :: packBits bits).getD
                (j / 8 + 2) 0) = (packBits bits).getD (j / 8) 0 := rfl
            rw [hidx, hcons, packBits_testBit bits j (by omega)]
            have := hbits j hj
            rw [Nat.zero_add] at this
            rw [this]
            simp [coilOn, hmiss]
      · exfalso
        have hnone : mbcoil_find_desc coils (betou16 req 1) = none := by
          rcases hfd : mbcoil_find_desc coils (betou16 req 1) with _ | c
          · rfl
          · exact absurd (by simp [hfd]) hfirst
        unfold mbfn_read_coils at h
        rw [if_neg (by simp [hfc'])] at h
        rw [if_neg (by omega)] at h
        rw [if_neg (by simp only [MBCOIL_N_READ_MAX]; omega)] at h
        rw [if_pos (by simp [hnone])] at h
        simp at h

/-- Witness for C6 on a concrete table (address 5 ON, 6 missing, 7 without
read access): quantity 0 is rejected, a missing first address is rejected,
and the missing address 6 contributes bit 0 of a 1-byte response. -/
theorem c6_read_coils_witness :
    mbfn_read_coils coilsRead [0x01, 0, 5, 0, 0] [] = (.MB_ILLEGAL_DATA_VAL, []) ∧
    mbfn_read_coils coilsRead [0x01, 0, 9, 0, 1] [] = (.MB_ILLEGAL_DATA_ADDR, []) ∧
    (((mbfn_read_coils coilsRead [0x01, 0, 5, 0, 3] []).2.getD 2 0).testBit 1 = false ∧
      (mbfn_read_coils coilsRead [0x01, 0, 5, 0, 3] []).2.getD 1 0 = 1) := by
  refine ⟨?_, ?_, ?_, ?_⟩
  · exact (c6_read_coils coilsRead [0x01, 0, 5, 0, 0] [] (by decide) (by decide)).1
      (by decide)
  · exact (c6_read_coils coilsRead [0x01, 0, 9, 0, 1] [] (by decide) (by decide)).2.1
      (by decide) (by decide) rfl
  · exact ((c6_read_coils coilsRead [0x01, 0, 5, 0, 3] [] (by decide) (by decide)).2.2
      _ rfl).2.2 1 (by decide) rfl
  · exact ((c6_read_coils coilsRead [0x01, 0, 5, 0, 3] [] (by decide) (by decide)).2.2
      _ rfl).2.1

/-- **C10**: during FC 0x01 (shape-valid request, first address present):
(i) when every address of the range is benign — missing, OFF, ON or
NO_ACCESS — the handler succeeds and every existing coil whose read yields
NO_ACCESS contributes bit 0 without raising an exception; (ii) a coil whose
read-lock asserts (read result LOCKED) aborts the whole request with
`ILLEGAL_DATA_ADDR` even when it is not the first coil of the range. -/
theorem c10_no_access_vs_locked (coils : List MbcoilDesc) (req mem : List Nat)
    (hfc : req.getD 0 0 = 0x01) (hlen : req.length = 5)
    (hq1 : 1 ≤ betou16 req 3) (hq2 : betou16 req 3 ≤ 2000)
    (hfirst : (mbcoil_find_desc coils (betou16 req 1)).isSome = true) :
    ((∀ j, j < betou16 req 3 →
        coilReadBenign mem coils ((betou16 req 1 + j) % 65536) = true) →
      ∃ res, mbfn_read_coils coils req mem = (.MB_OK, res) ∧
        ∀ j, j < betou16 req 3 →
          (∃ c, mbcoil_find_desc coils ((betou16 req 1 + j) % 65536) = some c ∧
            mbcoil_read mem c = .noAccess) →
          (res.getD (2 + j / 8) 0).testBit (j % 8) = false) ∧
    (∀ j0, j0 < betou16 req 3 →
      (∀ j, j < j0 →
        coilReadBenign mem coils ((betou16 req 1 + j) % 65536) = true) →
      (∃ c, mbcoil_find_desc coils ((betou16 req 1 + j0) % 65536) = some c ∧
        mbcoil_read mem c = .locked) →
      mbfn_read_coils coils req mem = (.MB_ILLEGAL_DATA_ADDR, [])) := by
  constructor
  · intro hben
    obtain ⟨bits, hgo⟩ := readCoilsGo_benign_ok mem coils (betou16 req 1)
      (betou16 req 3) 0 (fun j hj => by
        have := hben j hj
        rwa [Nat.zero_add])
    obtain ⟨hlenbits, hbits⟩ := readCoilsGo_ok mem coils (betou16 req 1)
      (betou16 req 3) 0 bits hgo
    refine ⟨req.getD 0 0 :: (betou16 req 3 + 7) / 8 :: packBits bits, ?_, ?_⟩
    · rw [mbfn_read_coils_reduce coils req mem hfc hlen hq1 hq2 hfirst, hgo]
    · intro j hj hnoacc
      obtain ⟨c, hc, hna⟩ := hnoacc
      have hidx : (2 + j / 8) = (j / 8) + 2 := by omega
      have hcons : ((req.getD 0 0 :: (betou16 req 3 + 7) / 8 :: packBits bits).getD
          (j / 8 + 2) 0) = (packBits bits).getD (j / 8) 0 := rfl
      rw [hidx, hcons, packBits_testBit bits j (by omega)]
      have := hbits j hj
      rw [Nat.zero_add] at this
      rw [this]
      simp [coilOn, hc, hna]
  · intro j0 hj0 hben hlock
    have hgo : readCoilsGo mem coils (betou16 req 1) 0 (betou16 req 3) =
        .error .MB_ILLEGAL_DATA_ADDR := by
      refine readCoilsGo_locked mem coils (betou16 req 1) j0 (betou16 req 3) 0 hj0
        (fun j hj => by have := hben j hj; rwa [Nat.zero_add]) ?_
      obtain ⟨c, hc, hl⟩ := hlock
      exact ⟨c, by rwa [Nat.zero_add], hl⟩
    rw [mbfn_read_coils_reduce coils req mem hfc hlen hq1 hq2 hfirst, hgo]

/-- Witness for C10: the NO_ACCESS coil at address 7 (third of the range)
contributes bit 0 on a successful read, while the read-locked coil at address
6 (second of the range, not the first) aborts with `ILLEGAL_DATA_ADDR`. -/
theorem c10_no_access_vs_locked_witness :
    (∃ res, mbfn_read_coils coilsRead [0x01, 0, 5, 0, 3] [] = (.MB_OK, res) ∧
      ∀ j, j < betou16 [0x01, 0, 5, 0, 3] 3 →
        (∃ c, mbcoil_find_desc coilsRead ((betou16 [0x01, 0, 5, 0, 3] 1 + j) % 65536) = some c ∧
          mbcoil_read [] c = .noAccess) →
        ((res.getD (2 + j / 8) 0).testBit (j % 8) = false)) ∧
    mbfn_read_coils coilsLocked [0x01, 0, 5, 0, 2] [] = (.MB_ILLEGAL_DATA_ADDR, []) := by
  constructor
  · exact (c10_no_access_vs_locked coilsRead [0x01, 0, 5, 0, 3] []
      (by decide) (by decide) (by decide) (by decide) rfl).1 (by decide)
  · exact (c10_no_access_vs_locked coilsLocked [0x01, 0, 5, 0, 2] []
      (by decide) (by decide) (by decide) (by decide) rfl).2 1 (by decide)
      (by decide) ⟨{ address := 6, rlock_cb := some true }, rfl, rfl⟩

/-- **C5**: in the ASCII framer, for every frame within the size bounds that
passes shape and hex validation, the LRC is checked before the slave-address
filter: on LRC mismatch the framer increments `bus_comm_err_counter`
(after the unconditional `bus_msg_counter` increment), appends exactly one
receive event carrying the `COMM_ERR` bit, and returns length 0 with no bytes
(no Modbus exception response) — with no hypothesis at all on the frame's
slave address. -/
theorem c5_ascii_lrc_before_address (inst : Mbinst) (mem : List Nat × List Nat)
    (req : List Nat)
    (hsz : ¬ (req.length < MBADU_ASCII_SIZE_MIN ∨ req.length > MBADU_ASCII_SIZE_MAX))
    (hshape : ¬ (req.getD 0 0 ≠ MBADU_ASCII_START_CHAR
      ∨ req.getD (req.length - 2) 0 ≠ 13
      ∨ req.getD (req.length - 1) 0 ≠ inst.state.ascii_delimiter
      ∨ (req.length - 1) % 2 ≠ 0))
    (hhex : (List.range' 1 (req.length - 3)).all
      (fun i => isxdigitB (req.getD i 0)) = true)
    (hlrc : (decodePairs ((req.drop 1).take (req.length - 3))).getD
        ((decodePairs ((req.drop 1).take (req.length - 3))).length - 1) 0 ≠
      calc_lrc ((decodePairs ((req.drop 1).take (req.length - 3))).take
        ((decodePairs ((req.drop 1).take (req.length - 3))).length - 1))) :
    mbadu_ascii_handle_req inst mem req =
      (0, [],
        mb_add_comm_event
          { inst.state with
            bus_msg_counter := incr16 inst.state.bus_msg_counter
            bus_comm_err_counter := incr16 inst.state.bus_comm_err_counter }
          (MB_COMM_EVENT_IS_RECV |||
            ((if inst.state.is_listen_only then MB_COMM_EVENT_RECV_LISTEN_MODE else 0) |||
              MB_COMM_EVENT_RECV_COMM_ERR)),
        mem) := by
  unfold mbadu_ascii_handle_req
  rw [if_neg hsz]
  rw [if_neg hshape]
  have hhex' : ∀ x, 1 ≤ x → x < 1 + (req.length - 3) →
      isxdigitB (req[x]?.getD 0) = true := by
    intro x h1 h2
    have hm : x ∈ List.range' 1 (req.length - 3) := by
      rw [List.mem_range']
      exact ⟨x - 1, by omega, by omega⟩
    have hx := List.all_eq_true.mp hhex x hm
    simpa [List.getD_eq_getElem?_getD] using hx
  rw [if_neg (by simp; exact hhex')]
  rw [if_pos hlrc]

/-- Witness for C5: a frame addressed to slave 17 with a wrong LRC, handled
by an instance whose own address is 1 (the frame is not addressed to it). -/
theorem c5_ascii_lrc_before_address_witness :
    mbadu_ascii_handle_req { } ([], []) asciiFrameBadLrc =
      (0, [],
        mb_add_comm_event
          { (({ } : Mbinst)).state with
            bus_msg_counter := incr16 (({ } : Mbinst)).state.bus_msg_counter
            bus_comm_err_counter := incr16 (({ } : Mbinst)).state.bus_comm_err_counter }
          (MB_COMM_EVENT_IS_RECV |||
            ((if (({ } : Mbinst)).state.is_listen_only then MB_COMM_EVENT_RECV_LISTEN_MODE
              else 0) ||| MB_COMM_EVENT_RECV_COMM_ERR)),
        ([], [])) :=
  c5_ascii_lrc_before_address { } ([], []) asciiFrameBadLrc
    (by decide) (by decide) (by decide) (by decide)

/-- Big-endian 16-bit round trip on bytes. -/
theorem u16tobe_betou16 (hi lo : Nat) (hhi : hi < 256) (hlo : lo < 256) :
    u16tobe (hi * 256 + lo) = [hi, lo] := by
  show [(hi * 256 + lo) / 256 % 256, (hi * 256 + lo) % 256] = [hi, lo]
  have h1 : (hi * 256 + lo) / 256 % 256 = hi := by omega
  have h2 : (hi * 256 + lo) % 256 = lo := by omega
  rw [h1, h2]

/-- Helper for C4: when all sub-requests validate and the write phase
succeeds, the response built by the write loop is byte-for-byte the
sub-request bytes of the request. -/
theorem fileWriteApply_echo (inst : Mbinst) :
    ∀ (n : Nat) (chunk : List Nat), chunk.length ≤ n →
    (∀ b ∈ chunk, b < 256) →
    fileWriteValidate inst chunk = .ok () →
    ∀ res mem mem', fileWriteApply inst chunk mem = (.MB_OK, res, mem') →
    res = chunk := by
  intro n
  induction n with
  | zero =>
    intro chunk hn hb hval res mem mem' happ
    have hz : chunk = [] := List.length_eq_zero.mp (by omega)
    subst hz
    unfold fileWriteApply at happ
    simp at happ
    exact happ.1
  | succ n ih =>
    intro chunk hn hb hval res mem mem' happ
    by_cases hemp : chunk.isEmpty
    · rcases chunk with _ | ⟨a, t⟩
      · unfold fileWriteApply at happ
        simp at happ
        exact happ.1
      · simp at hemp
    · unfold fileWriteValidate at hval
      rw [if_neg hemp] at hval
      simp only [WRITE_SUB_REQ_MIN_SIZE, WRITE_SUB_REQ_HEADER_SIZE, REF_TYPE,
        MAX_REC_NO] at hval
      unfold fileWriteApply at happ
      rw [dif_neg hemp] at happ
      simp only [WRITE_SUB_REQ_HEADER_SIZE, REF_TYPE] at happ
      split_ifs at hval with h9 hrt hf0 hext hrl
      all_goals try exact absurd hval (by simp)
      push_neg at hrl
      rcases hfind : mbfile_find inst.files (betou16 chunk 1) with _ | file
      · rw [hfind] at hval
        exact absurd hval (by simp)
      · rw [hfind] at hval happ
        have hval2 : (match mbfile_write_allowed file (betou16 chunk 3) (betou16 chunk 5)
            (chunk.drop 7) with
          | Mbstatus.MB_OK => fileWriteValidate inst (chunk.drop (7 + betou16 chunk 5 * 2))
          | st => Except.error st) = Except.ok () := hval
        rcases hwa : mbfile_write_allowed file (betou16 chunk 3) (betou16 chunk 5)
            (chunk.drop 7) with _ | _ | _ | _ | _ | _ | _ | _ | _
        all_goals rw [hwa] at hval2
        all_goals simp only [] at hval2
        all_goals try exact absurd hval2 (by simp)
        -- surviving case: the write-allowed walk returned MB_OK
        rcases hw : mbfile_write (some file) mem (betou16 chunk 3) (betou16 chunk 5)
            (chunk.drop 7) with ⟨st, mem1⟩
        rw [hw] at happ
        dsimp only at happ
        by_cases hst : st = Mbstatus.MB_OK
        · subst hst
          rw [if_neg (show ¬(Mbstatus.MB_OK ≠ Mbstatus.MB_OK) by simp)] at happ
          rcases hr5 : betou16 chunk 5 with _ | rl
          · exact absurd hr5 hrl.1
          · rw [hr5] at happ
            dsimp only at happ
            rcases happ2 : fileWriteApply inst (chunk.drop (7 + (rl + 1) * 2)) mem1
                with ⟨st2, res2, mem2⟩
            rw [happ2] at happ
            dsimp only at happ
            simp only [Prod.mk.injEq] at happ
            obtain ⟨hst2, hres, hmem2⟩ := happ
            rcases chunk with _ | ⟨c0, chunk⟩
            · simp at hemp
            rcases chunk with _ | ⟨c1, chunk⟩
            · simp at h9
            rcases chunk with _ | ⟨c2, chunk⟩
            · simp at h9
            rcases chunk with _ | ⟨c3, chunk⟩
            · simp at h9
            rcases chunk with _ | ⟨c4, chunk⟩
            · simp at h9
            rcases chunk with _ | ⟨c5, chunk⟩
            · simp at h9
            rcases chunk with _ | ⟨c6, rest⟩
            · simp at h9
            have hr5' : betou16 (6 :: c1 :: c2 :: c3 :: c4 :: c5 :: c6 :: rest) 5 =
                rl + 1 := hr5
            have hc0 : c0 = 6 := by
              have := hrt
              simp [List.getD] at this
              exact this
            subst hc0
            have hrest : res2 = (6 :: c1 :: c2 :: c3 :: c4 :: c5 :: c6 :: rest).drop
                (7 + (rl + 1) * 2) := by
              refine ih _ (by simp at hn ⊢; omega)
                (fun b hbm => hb b (List.mem_of_mem_drop hbm)) ?_ res2 mem1 mem2 ?_
              · rw [← hr5']
                exact hval2
              · rw [hst2] at happ2
                exact happ2
            rw [← hres, hrest]
            have hb1 : c1 < 256 := hb c1 (by simp)
            have hb2 : c2 < 256 := hb c2 (by simp)
            have hb3 : c3 < 256 := hb c3 (by simp)
            have hb4 : c4 < 256 := hb c4 (by simp)
            have hb5 : c5 < 256 := hb c5 (by simp)
            have hb6 : c6 < 256 := hb c6 (by simp)
            have he1 : betou16 (6 :: c1 :: c2 :: c3 :: c4 :: c5 :: c6 :: rest) 1 =
                c1 * 256 + c2 := rfl
            have he3 : betou16 (6 :: c1 :: c2 :: c3 :: c4 :: c5 :: c6 :: rest) 3 =
                c3 * 256 + c4 := rfl
            have he5 : betou16 (6 :: c1 :: c2 :: c3 :: c4 :: c5 :: c6 :: rest) 5 =
                c5 * 256 + c6 := rfl
            rw [he1, he3, u16tobe_betou16 c1 c2 hb1 hb2, u16tobe_betou16 c3 c4 hb3 hb4]
            have hdrop : (6 :: c1 :: c2 :: c3 :: c4 :: c5 :: c6 :: rest).drop
                (7 + (rl + 1) * 2) = rest.drop ((rl + 1) * 2) := by
              rw [← List.drop_drop]
              rfl
            have hdata : (6 :: c1 :: c2 :: c3 :: c4 :: c5 :: c6 :: rest).drop 7 =
                rest := rfl
            rw [hdrop, hdata]
            rw [he5] at hr5'
            rw [← hr5', u16tobe_betou16 c5 c6 hb5 hb6]
            simp [List.take_append_drop]
        · rw [if_pos (by simp [hst])] at happ
          simp only [Prod.mk.injEq] at happ
          exact absurd happ.1 hst

/-- **C4**: for every shape-valid Write File Record request (FC 0x15, all
bytes in range): (1) all sub-requests are first fully validated — if the
validation phase fails with some status, that status is returned, the
register memory is untouched and `commit_regs_write` is not invoked; (2) if
validation and every write succeed, `commit_regs_write` is invoked exactly
once (when installed) and the response echoes the request byte-for-byte;
(3) a non-OK status from the write phase is returned as the exception with no
commit, the transaction staying partially applied. -/
theorem c4_file_write_phases (inst : Mbinst) (req : List Nat) (mem : List Nat)
    (hbytes : ∀ b ∈ req, b < 256)
    (hfc : req.getD 0 0 = 0x15) (hlen : 11 ≤ req.length)
    (hbc1 : 9 ≤ req.getD 1 0) (hbc2 : req.getD 1 0 ≤ 250)
    (hbc3 : req.getD 1 0 = req.length - 2) :
    (∀ st, fileWriteValidate inst (req.drop 2) = .error st →
      mbfn_file_write inst req mem = (st, [], mem, 0)) ∧
    (fileWriteValidate inst (req.drop 2) = .ok () →
      (∀ res mem', fileWriteApply inst (req.drop 2) mem = (.MB_OK, res, mem') →
        mbfn_file_write inst req mem =
          (.MB_OK, req, mem', if inst.commit_regs_write_cb then 1 else 0)) ∧
      (∀ st res mem', st ≠ .MB_OK →
        fileWriteApply inst (req.drop 2) mem = (st, res, mem') →
        mbfn_file_write inst req mem = (st, [], mem', 0))) := by
  simp only [List.getD_eq_getElem?_getD] at hfc hbc1 hbc2 hbc3
  have hred : ∀ x, mbfn_file_write inst req mem = x ↔
      (match fileWriteValidate inst (req.drop 2) with
        | .error st => (st, [], mem, 0)
        | .ok () =>
          match fileWriteApply inst (req.drop 2) mem with
          | (st, res, mem') =>
            if st ≠ Mbstatus.MB_OK then (st, [], mem', 0)
            else (Mbstatus.MB_OK, req.getD 0 0 :: req.getD 1 0 :: res, mem',
              if inst.commit_regs_write_cb then 1 else 0)) = x := by
    intro x
    unfold mbfn_file_write
    rw [if_neg (by simp [hfc])]
    rw [if_neg (by simp only [WRITE_REQ_MIN_SIZE,
      WRITE_SUB_REQ_MIN_SIZE, WRITE_SUB_REQ_HEADER_SIZE]; omega)]
    rw [if_neg (by
      simp only [WRITE_SUB_REQ_MIN_SIZE, WRITE_SUB_REQ_HEADER_SIZE,
        WRITE_REQ_MAX_BYTE_COUNT, MBPDU_DATA_SIZE_MAX,
        List.getD_eq_getElem?_getD]
      omega)]
  refine ⟨?_, ?_⟩
  · intro st hval
    rw [hred]
    rw [hval]
  · intro hval
    have hconsreq : req.getD 0 0 :: req.getD 1 0 :: req.drop 2 = req := by
      rcases req with _ | ⟨a, _ | ⟨b, rest⟩⟩
      · simp at hlen
      · simp at hlen
      · rfl
    constructor
    · intro res mem' happ
      have hres : res = req.drop 2 := by
        refine fileWriteApply_echo inst (req.drop 2).length (req.drop 2) le_rfl
          (fun b hbm => hbytes b (List.mem_of_mem_drop hbm)) hval res mem mem' happ
      rw [hred, hval, happ]
      show (Mbstatus.MB_OK, req.getD 0 0 :: req.getD 1 0 :: res, mem',
          if inst.commit_regs_write_cb = true then 1 else 0) =
        (Mbstatus.MB_OK, req, mem', if inst.commit_regs_write_cb = true then 1 else 0)
      rw [hres, hconsreq]
    · intro st res mem' hst happ
      rw [hred, hval, happ]
      show (if st ≠ Mbstatus.MB_OK then
          ((st, [], mem', 0) : Mbstatus × List Nat × List Nat × Nat)
        else (Mbstatus.MB_OK, req.getD 0 0 :: req.getD 1 0 :: res, mem',
          if inst.commit_regs_write_cb = true then 1 else 0)) = (st, [], mem', 0)
      rw [if_pos hst]

/-- Witness for C4: the two-register file write succeeds, echoes the request,
stores the two words and commits exactly once. -/
theorem c4_file_write_phases_witness :
    mbfn_file_write instFiles fileWriteReq [0, 0, 0, 0] =
      (.MB_OK, fileWriteReq, [0x1234, 0xABCD, 0, 0], 1) :=
  ((c4_file_write_phases instFiles fileWriteReq [0, 0, 0, 0]
      (by decide) (by decide) (by decide) (by decide) (by decide) (by decide)).2
    (by simp [fileWriteValidate, fileWriteReq, instFiles, betou16, mbfile_find, mbfind,
      mbfind_lin, mbfile_write_allowed, mbfileWriteAllowedGo, mbreg_find_desc,
      mbreg_write_allowed, MbregType.nWords, WRITE_SUB_REQ_MIN_SIZE,
      WRITE_SUB_REQ_HEADER_SIZE, REF_TYPE, MAX_REC_NO, BSEARCH_THRESHOLD])).1
    (fileWriteReq.drop 2) [0x1234, 0xABCD, 0, 0]
    (by simp [fileWriteApply, fileWriteReq, instFiles, betou16, mbfile_find, mbfind,
      mbfind_lin, mbfile_write, mbfileWriteGo, mbreg_find_desc, mbreg_write,
      writeWords, u16tobe, MbregType.nWords, WRITE_SUB_REQ_MIN_SIZE,
      WRITE_SUB_REQ_HEADER_SIZE, REF_TYPE, BSEARCH_THRESHOLD, List.range_succ,
      List.range_zero, List.set])

/-- The word list produced by a successful register read has exactly
`min (nWords - offset) remaining` entries. -/
theorem mbreg_read_words_length {mem : List Nat} {reg : MbregDesc}
    {remaining offset : Nat} {ws : List Nat}
    (h : mbreg_read mem reg remaining offset = .words ws) :
    ws.length = min (reg.type.nWords - offset) remaining := by
  unfold mbreg_read at h
  split at h
  · exact absurd h (by simp)
  · rcases hr : reg.racc with _ | ws' | cell | res <;> simp [hr] at h
    · rw [← h]
      simp [regFullWords]
      omega
    · rw [← h]
      simp
    · rcases res with _ | ws' <;> simp at h
      rw [← h]
      simp [regFullWords]
      omega

/-- **C7**: the file read accessor: a missing descriptor at the first
requested record yields `ILLEGAL_ADDR` with nothing emitted; at every later
position of the walk, a missing descriptor or a locked / read-denied register
emits exactly two zero bytes and advances one word, a readable register emits
its words (big-endian) and advances by the word count produced, and a device
failure aborts the walk with `DEVICE_ERR`. -/
theorem c7_file_read_accessor (file : MbfileDesc) (mem : List Nat)
    (record_no record_length : Nat) :
    (mbreg_find_desc file.records record_no = none →
      mbfile_read file mem record_no record_length = (.illegalAddr, [])) ∧
    (∀ reg_offs, reg_offs < record_length →
      (mbreg_find_desc file.records ((record_no + reg_offs) % 65536) = none →
        mbfileReadGo file.records mem record_no record_length reg_offs =
          ((mbfileReadGo file.records mem record_no record_length (reg_offs + 1)).1,
            0 :: 0 ::
              (mbfileReadGo file.records mem record_no record_length (reg_offs + 1)).2)) ∧
      (∀ reg, mbreg_find_desc file.records ((record_no + reg_offs) % 65536) = some reg →
        ((mbreg_read mem reg (record_length - reg_offs) 0 = .locked ∨
            mbreg_read mem reg (record_length - reg_offs) 0 = .noAccess) →
          mbfileReadGo file.records mem record_no record_length reg_offs =
            ((mbfileReadGo file.records mem record_no record_length (reg_offs + 1)).1,
              0 :: 0 ::
                (mbfileReadGo file.records mem record_no record_length (reg_offs + 1)).2)) ∧
        (∀ ws, mbreg_read mem reg (record_length - reg_offs) 0 = .words ws →
          mbfileReadGo file.records mem record_no record_length reg_offs =
            ((mbfileReadGo file.records mem record_no record_length
                (reg_offs + ws.length)).1,
              wordsToBytes ws ++
                (mbfileReadGo file.records mem record_no record_length
                  (reg_offs + ws.length)).2)) ∧
        (mbreg_read mem reg (record_length - reg_offs) 0 = .devFail →
          mbfileReadGo file.records mem record_no record_length reg_offs =
            (.deviceErr, [])))) := by
  refine ⟨?_, ?_⟩
  · intro hmiss
    unfold mbfile_read
    rw [hmiss]
  · intro reg_offs hoffs
    refine ⟨?_, ?_⟩
    · intro hmiss
      conv_lhs => rw [mbfileReadGo.eq_def]
      rw [dif_pos hoffs, hmiss]
    · intro reg hfind
      refine ⟨?_, ?_, ?_⟩
      · intro hlk
        conv_lhs => rw [mbfileReadGo.eq_def]
        rw [dif_pos hoffs]
        rcases hlk with hlk | hlk <;> simp only [hfind, hlk]
      · intro ws hws
        have hlen := mbreg_read_words_length hws
        conv_lhs => rw [mbfileReadGo.eq_def]
        rw [dif_pos hoffs]
        simp only [hfind, hws]
        rw [show reg.type.nWords ⊓ (record_length - reg_offs) = ws.length from by omega]
      · intro hdf
        conv_lhs => rw [mbfileReadGo.eq_def]
        rw [dif_pos hoffs]
        simp only [hfind, hdf]

/-- Witness for C7 on a concrete file (readable register at 10, a missing
record at 11, a read-locked register at 12, a failing register at 13). -/
theorem c7_file_read_accessor_witness :
    mbfile_read fileReadFix [] 99 1 = (.illegalAddr, []) ∧
    mbfileReadGo fileReadFix.records [] 10 2 1 =
      ((mbfileReadGo fileReadFix.records [] 10 2 2).1,
        0 :: 0 :: (mbfileReadGo fileReadFix.records [] 10 2 2).2) ∧
    mbfileReadGo fileReadFix.records [] 10 2 0 =
      ((mbfileReadGo fileReadFix.records [] 10 2 1).1,
        wordsToBytes [0x1234] ++ (mbfileReadGo fileReadFix.records [] 10 2 1).2) ∧
    mbfileReadGo fileReadFix.records [] 12 1 0 =
      ((mbfileReadGo fileReadFix.records [] 12 1 1).1,
        0 :: 0 :: (mbfileReadGo fileReadFix.records [] 12 1 1).2) ∧
    mbfileReadGo fileReadFix.records [] 13 1 0 = (.deviceErr, []) := by
  refine ⟨?_, ?_, ?_, ?_, ?_⟩
  · exact (c7_file_read_accessor fileReadFix [] 99 1).1 rfl
  · exact ((c7_file_read_accessor fileReadFix [] 10 2).2 1 (by decide)).1 rfl
  · exact (((c7_file_read_accessor fileReadFix [] 10 2).2 0 (by decide)).2
      { address := 10, racc := .val [0x1234] } rfl).2.1 [0x1234] rfl
  · exact (((c7_file_read_accessor fileReadFix [] 12 1).2 0 (by decide)).2
      { address := 12, rlocked := true, racc := .val [7] } rfl).1 (Or.inl rfl)
  · exact (((c7_file_read_accessor fileReadFix [] 13 1).2 0 (by decide)).2
      { address := 13, racc := .fn none } rfl).2.2 rfl

/-- A sorted table has a sorted tail. -/
theorem sortedByKey_tail {α : Type} {key : α → Nat} {a : α} {rest : List α}
    (h : sortedByKey key (a :: rest) = true) : sortedByKey key rest = true := by
  cases rest with
  | nil => rfl
  | cons b r =>
    simp [sortedByKey] at h
    simpa [sortedByKey] using h.2

/-- In a sorted table the head key is below every tail key. -/
theorem sortedByKey_head_lt {α : Type} (key : α → Nat) :
    ∀ (rest : List α) (a : α), sortedByKey key (a :: rest) = true →
      ∀ (j : Nat) (hj : j < rest.length), key a < key rest[j] := by
  intro rest
  induction rest with
  | nil =>
    intro a _ j hj
    exact absurd hj (by simp)
  | cons b r ih =>
    intro a hs j hj
    simp [sortedByKey] at hs
    cases j with
    | zero => exact hs.1
    | succ j' =>
      have hj' : j' < r.length := by simpa using hj
      have h2 := ih b (by simpa [sortedByKey] using hs.2) j' hj'
      simpa using lt_trans hs.1 h2

/-- Key monotonicity of a sorted table over indices. -/
theorem sorted_get_lt {α : Type} (key : α → Nat) :
    ∀ (tbl : List α), sortedByKey key tbl = true →
      ∀ (i j : Nat) (hi : i < tbl.length) (hj : j < tbl.length), i < j →
        key tbl[i] < key tbl[j] := by
  intro tbl
  induction tbl with
  | nil =>
    intro _ i j _ hj _
    exact absurd hj (by simp)
  | cons a rest ih =>
    intro hs i j hi hj hij
    cases i with
    | zero =>
      cases j with
      | zero => omega
      | succ j' =>
        simpa using sortedByKey_head_lt key rest a hs j' (by simpa using hj)
    | succ i' =>
      cases j with
      | zero => omega
      | succ j' =>
        simpa using ih (sortedByKey_tail hs) i' j'
          (by simpa using hi) (by simpa using hj) (by omega)

/-- On a sorted table, the binary-search loop finds the element whose key
matches, whenever one exists inside the current bracket. -/
theorem mbfind_bin_go_found {α : Type} (key : α → Nat) (tbl : List α) (k : Nat)
    (hs : sortedByKey key tbl = true) :
    ∀ (n l r i : Nat), r + 1 - l ≤ n → r < tbl.length →
      l ≤ i → i ≤ r → ∀ (hi : i < tbl.length), key tbl[i] = k →
      mbfind_bin_go key tbl k l r = some tbl[i] := by
  intro n
  induction n with
  | zero =>
    intro l r i hn _ hli hir _ _
    omega
  | succ n ih =>
    intro l r i hn hr hli hir hi hk
    have hlr : l ≤ r := by omega
    have hdiv : (r - l) / 2 ≤ r - l := Nat.div_le_self (r - l) 2
    have hm : l + (r - l) / 2 < tbl.length := by omega
    have hml : l ≤ l + (r - l) / 2 := by omega
    have hmr : l + (r - l) / 2 ≤ r := by omega
    conv_lhs => rw [mbfind_bin_go.eq_def]
    rw [dif_pos hlr, List.getElem?_eq_getElem hm]
    show (if key tbl[l + (r - l) / 2] < k then
            mbfind_bin_go key tbl k (l + (r - l) / 2 + 1) r
          else if k < key tbl[l + (r - l) / 2] then
            if l + (r - l) / 2 = 0 then none
            else mbfind_bin_go key tbl k l (l + (r - l) / 2 - 1)
          else some tbl[l + (r - l) / 2]) = some tbl[i]
    rcases Nat.lt_trichotomy (key tbl[l + (r - l) / 2]) k with hc | hc | hc
    · have him : l + (r - l) / 2 < i := by
        rcases Nat.lt_trichotomy i (l + (r - l) / 2) with h2 | h2 | h2
        · have := sorted_get_lt key tbl hs i (l + (r - l) / 2) hi hm h2
          omega
        · subst h2
          omega
        · exact h2
      rw [if_pos hc]
      exact ih (l + (r - l) / 2 + 1) r i (by omega) hr (by omega) hir hi hk
    · have hmi : l + (r - l) / 2 = i := by
        rcases Nat.lt_trichotomy (l + (r - l) / 2) i with h2 | h2 | h2
        · have := sorted_get_lt key tbl hs (l + (r - l) / 2) i hm hi h2
          omega
        · exact h2
        · have := sorted_get_lt key tbl hs i (l + (r - l) / 2) hi hm h2
          omega
      subst hmi
      rw [if_neg (by omega), if_neg (by omega)]
    · have him : i < l + (r - l) / 2 := by
        rcases Nat.lt_trichotomy i (l + (r - l) / 2) with h2 | h2 | h2
        · exact h2
        · subst h2
          omega
        · have := sorted_get_lt key tbl hs (l + (r - l) / 2) i hm hi h2
          omega
      rw [if_neg (by omega), if_pos hc, if_neg (by omega)]
      exact ih l (l + (r - l) / 2 - 1) i (by omega) (by omega) hli (by omega) hi hk

/-- The binary-search loop returns nothing when no key in the bracket
matches (no sortedness needed). -/
theorem mbfind_bin_go_none {α : Type} (key : α → Nat) (tbl : List α) (k : Nat) :
    ∀ (n l r : Nat), r + 1 - l ≤ n →
      (∀ (j : Nat) (hj : j < tbl.length), l ≤ j → j ≤ r → key tbl[j] ≠ k) →
      mbfind_bin_go key tbl k l r = none := by
  intro n
  induction n with
  | zero =>
    intro l r hn _
    rw [mbfind_bin_go.eq_def, dif_neg (by omega)]
  | succ n ih =>
    intro l r hn hno
    by_cases hlr : l ≤ r
    · have hdiv : (r - l) / 2 ≤ r - l := Nat.div_le_self (r - l) 2
      rcases hmq : tbl[(l + (r - l) / 2)]? with _ | c
      · rw [mbfind_bin_go.eq_def, dif_pos hlr, hmq]
      · obtain ⟨hm, hcm⟩ := List.getElem?_eq_some_iff.mp hmq
        have hml : l ≤ l + (r - l) / 2 := by omega
        have hmr : l + (r - l) / 2 ≤ r := by omega
        have hkm : key c ≠ k := by
          have h2 := hno (l + (r - l) / 2) hm hml hmr
          rw [hcm] at h2
          exact h2
        rw [mbfind_bin_go.eq_def, dif_pos hlr, hmq]
        show (if key c < k then
                mbfind_bin_go key tbl k (l + (r - l) / 2 + 1) r
              else if k < key c then
                if l + (r - l) / 2 = 0 then none
                else mbfind_bin_go key tbl k l (l + (r - l) / 2 - 1)
              else some c) = none
        rcases Nat.lt_trichotomy (key c) k with hc | hc | hc
        · rw [if_pos hc]
          exact ih (l + (r - l) / 2 + 1) r (by omega)
            (fun j hj hlj hjr => hno j hj (by omega) hjr)
        · exact absurd hc hkm
        · rw [if_neg (by omega), if_pos hc]
          by_cases hm0 : l + (r - l) / 2 = 0
          · rw [if_pos hm0]
          · rw [if_neg hm0]
            exact ih l (l + (r - l) / 2 - 1) (by omega)
              (fun j hj hlj hjr => hno j hj hlj (by omega))
    · rw [mbfind_bin_go.eq_def, dif_neg hlr]

/-- On a sorted table the linear scan returns the matching element. -/
theorem mbfind_lin_found {α : Type} (key : α → Nat) (tbl : List α) (k : Nat)
    (hs : sortedByKey key tbl = true) (i : Nat) (hi : i < tbl.length)
    (hk : key tbl[i] = k) :
    mbfind_lin key tbl k = some tbl[i] := by
  have h1 : (tbl.find? (fun c => key c == k)).isSome := by
    rw [List.find?_isSome]
    exact ⟨tbl[i], List.getElem_mem hi, by simp [hk]⟩
  obtain ⟨c, hc⟩ := Option.isSome_iff_exists.mp h1
  have hck : key c = k := by
    have h2 := List.find?_some hc
    simpa using h2
  obtain ⟨j, hj, hcj⟩ := List.getElem_of_mem (List.mem_of_find?_eq_some hc)
  have hji : j = i := by
    rcases Nat.lt_trichotomy j i with h2 | h2 | h2
    · have h3 := sorted_get_lt key tbl hs j i hj hi h2
      rw [hcj] at h3
      omega
    · exact h2
    · have h3 := sorted_get_lt key tbl hs i j hi hj h2
      rw [hcj] at h3
      omega
  subst hji
  unfold mbfind_lin
  rw [hc, ← hcj]

/-- The linear scan returns nothing when no key matches. -/
theorem mbfind_lin_no_match {α : Type} (key : α → Nat) (tbl : List α) (k : Nat)
    (hno : ∀ (j : Nat) (hj : j < tbl.length), key tbl[j] ≠ k) :
    mbfind_lin key tbl k = none := by
  unfold mbfind_lin
  rw [List.find?_eq_none]
  intro x hx
  obtain ⟨j, hj, hxj⟩ := List.getElem_of_mem hx
  simp only [beq_iff_eq]
  rw [← hxj]
  exact hno j hj

/-- A linear-scan hit lies in the table and carries the searched key. -/
theorem mbfind_lin_some_char {α : Type} (key : α → Nat) (tbl : List α)
    (k : Nat) (c : α) (h : mbfind_lin key tbl k = some c) :
    c ∈ tbl ∧ key c = k :=
  ⟨List.mem_of_find?_eq_some h, by simpa using List.find?_some h⟩

/-- The linear scan misses exactly when no table entry carries the key. -/
theorem mbfind_lin_none_iff {α : Type} (key : α → Nat) (tbl : List α)
    (k : Nat) :
    mbfind_lin key tbl k = none ↔ ∀ c ∈ tbl, key c ≠ k := by
  unfold mbfind_lin
  rw [List.find?_eq_none]
  simp

/-- On a sorted table the binary-search path agrees with the linear scan. -/
theorem mbfind_bin_eq_lin {α : Type} (key : α → Nat) (tbl : List α) (k : Nat)
    (hs : sortedByKey key tbl = true) :
    mbfind_bin key tbl k = mbfind_lin key tbl k := by
  cases tbl with
  | nil => rfl
  | cons a rest =>
    by_cases hex : ∃ (i : Nat) (hi : i < (a :: rest).length), key (a :: rest)[i] = k
    · obtain ⟨i, hi, hk⟩ := hex
      rw [mbfind_lin_found key (a :: rest) k hs i hi hk]
      unfold mbfind_bin
      rw [if_neg (by simp)]
      have hlen : (a :: rest).length = rest.length + 1 := by simp
      have hi' : i < rest.length + 1 := by omega
      exact mbfind_bin_go_found key (a :: rest) k hs ((a :: rest).length) 0
        ((a :: rest).length - 1) i (by omega) (by omega) (by omega) (by omega) hi hk
    · push_neg at hex
      rw [mbfind_lin_no_match key (a :: rest) k hex]
      unfold mbfind_bin
      rw [if_neg (by simp)]
      have hlen : (a :: rest).length = rest.length + 1 := by simp
      exact mbfind_bin_go_none key (a :: rest) k ((a :: rest).length) 0
        ((a :: rest).length - 1) (by omega) (fun j hj _ _ => hex j hj)

/-- On a sorted table the threshold dispatcher `mbfind` (binary search above
16 entries, linear scan otherwise) equals the linear scan. -/
theorem mbfind_eq_lin {α : Type} (key : α → Nat) (tbl : List α) (k : Nat)
    (hs : sortedByKey key tbl = true) :
    mbfind key tbl k = mbfind_lin key tbl k := by
  unfold mbfind
  by_cases he : tbl.isEmpty
  · rw [if_pos he]
    rw [List.isEmpty_iff.mp he]
    rfl
  · rw [if_neg he]
    by_cases hb : tbl.length > BSEARCH_THRESHOLD
    · rw [if_pos hb]
      have h2 := mbfind_bin_eq_lin key tbl k hs
      unfold mbfind_bin at h2
      rw [if_neg he] at h2
      exact h2
    · rw [if_neg hb]

/-- **C9**: on every descriptor table sorted strictly ascending by key, the
binary-search path (taken above the 16-entry threshold) and the linear-scan
path of the lookup yield identical results — for coil tables keyed by
address and file tables keyed by file number — so the threshold dispatchers
`mbcoil_find_desc` and `mbfile_find` equal the linear scan, whose result is
the descriptor carrying the key when one exists and `none` otherwise. -/
theorem c9_lookup_equivalence :
    (∀ (coils : List MbcoilDesc) (addr : Nat),
        sortedByKey (·.address) coils = true →
        (mbfind_bin (·.address) coils addr = mbfind_lin (·.address) coils addr ∧
         mbcoil_find_desc coils addr = mbfind_lin (·.address) coils addr ∧
         (∀ c, mbfind_lin (·.address) coils addr = some c →
            c ∈ coils ∧ c.address = addr) ∧
         (mbfind_lin (·.address) coils addr = none ↔
            ∀ c ∈ coils, c.address ≠ addr))) ∧
    (∀ (files : List MbfileDesc) (fno : Nat),
        sortedByKey (·.file_no) files = true →
        (mbfind_bin (·.file_no) files fno = mbfind_lin (·.file_no) files fno ∧
         mbfile_find files fno = mbfind_lin (·.file_no) files fno ∧
         (∀ f, mbfind_lin (·.file_no) files fno = some f →
            f ∈ files ∧ f.file_no = fno) ∧
         (mbfind_lin (·.file_no) files fno = none ↔
            ∀ f ∈ files, f.file_no ≠ fno))) := by
  constructor
  · intro coils addr hs
    refine ⟨mbfind_bin_eq_lin _ coils addr hs, ?_, ?_, ?_⟩
    · unfold mbcoil_find_desc
      exact mbfind_eq_lin _ coils addr hs
    · intro c hc
      exact mbfind_lin_some_char _ coils addr c hc
    · exact mbfind_lin_none_iff _ coils addr
  · intro files fno hs
    refine ⟨mbfind_bin_eq_lin _ files fno hs, ?_, ?_, ?_⟩
    · unfold mbfile_find
      exact mbfind_eq_lin _ files fno hs
    · intro f hf
      exact mbfind_lin_some_char _ files fno f hf
    · exact mbfind_lin_none_iff _ files fno

/-- Witness for C9 on concrete 17-entry tables (binary-search sized). -/
theorem c9_lookup_equivalence_witness :
    (sortedByKey (·.address) coilTbl17 = true ∧
      mbfind_bin (·.address) coilTbl17 125 = mbfind_lin (·.address) coilTbl17 125 ∧
      mbcoil_find_desc coilTbl17 125 = mbfind_lin (·.address) coilTbl17 125) ∧
    (sortedByKey (·.file_no) fileTbl17 = true ∧
      mbfind_bin (·.file_no) fileTbl17 55 = mbfind_lin (·.file_no) fileTbl17 55 ∧
      mbfile_find fileTbl17 55 = mbfind_lin (·.file_no) fileTbl17 55) :=
  ⟨⟨by decide,
    (c9_lookup_equivalence.1 coilTbl17 125 (by decide)).1,
    (c9_lookup_equivalence.1 coilTbl17 125 (by decide)).2.1⟩,
   ⟨by decide,
    (c9_lookup_equivalence.2 fileTbl17 55 (by decide)).1,
    (c9_lookup_equivalence.2 fileTbl17 55 (by decide)).2.1⟩⟩

end ModbusSlave
